import Mathlib

/-!
# Verification of the resize-image search cores

Shallow embedding of the two byte-size-target search algorithms of the
resize-image package:

* `png-resizer.ts` : `resizePngToTarget` — single-parameter binary search on a
  linear scale factor against an external encode-at-scale function.
* `raster-resizer.ts` : `resizeRasterToTarget` / `fitByQuality` — nested binary
  search on (scale, quality) against an external encoder.

Modelling conventions:

* Scales, qualities, byte targets and tolerances are rationals (`ℚ`);
  JavaScript float literals such as `1e-3` are modelled by their decimal
  values.  Blob sizes (`Blob.size`) are naturals.
* The external render/encode collaborator (canvas `renderAtScale` + `toBlob`)
  is a parameter: for the PNG resizer `encode : ℚ → ℕ` gives the size of the
  blob produced at a scale, for the raster resizer
  `encode : ℚ → ℚ → Option ℕ` gives the size produced at a (scale, quality)
  pair, `none` modelling `canvas.toBlob` yielding `null`.  The encoder is a
  pure function, matching the spec's "idempotent for fixed inputs" collaborator.
* A returned blob is identified by the parameters of the encode call that
  produced it together with its size (`PngOutcome.enc` / `RasterOutcome.enc`),
  or is the original input blob (`.file`).
* `Math.sqrt`, a platform float operation, is modelled by a parameter
  (`sqrtSizeGuess`) holding the value the float square root produced.
* The probe trace (list of parameters passed to the encoder, in order) and a
  `decoded` flag (whether `loadImage` ran) are carried alongside the result.
* The optional `UPNG` palette quantizer of `png-resizer.ts` is modelled as
  absent (`window.UPNG` undefined), the case in which the scale search's best
  result is returned unchanged; `testMimeSupport` and the mime fallback of
  `raster-resizer.ts` are capability plumbing outside the search core, so
  `encode` stands for the effective (post-fallback) encoder.
-/

attribute [local semireducible] Rat.mul Rat.inv Rat.add Rat.sub

set_option maxRecDepth 10000

namespace ResizeImage

/-- The `clamp` helper of both resizers: `Math.max(a, Math.min(b, x))`. -/
def clamp (x a b : ℚ) : ℚ := max a (min b x)

/-- The `withinBuffer` helper of both resizers:
`size >= target - buffer && size <= target + buffer`. -/
def withinBuffer (size target buffer : ℚ) : Prop :=
  target - buffer ≤ size ∧ size ≤ target + buffer

instance (s t b : ℚ) : Decidable (withinBuffer s t b) :=
  inferInstanceAs (Decidable (_ ∧ _))

/-! ## PNG scale search (png-resizer.ts) -/

/-- The mutable locals of `resizePngToTarget`'s scale search
(png-resizer.ts lines 50-53): `low`, `high`, `bestBlob`, `bestScale`. -/
structure PngState where
  low : ℚ
  high : ℚ
  bestBlob : Option ℕ
  bestScale : ℚ
deriving Repr, DecidableEq

/-- The initial guess probe of `resizePngToTarget` (lines 61-72): probe once at
`guessScale`; on `blob.size <= targetBytes` record it as best and raise `low`,
otherwise lower `high`.  Initial values: `low = 0`, `high = 1`, `bestScale = 1`. -/
def pngInit (encode : ℚ → ℕ) (targetBytes guessScale : ℚ) : PngState :=
  if (encode guessScale : ℚ) ≤ targetBytes then
    { low := guessScale, high := 1, bestBlob := some (encode guessScale),
      bestScale := guessScale }
  else
    { low := 0, high := guessScale, bestBlob := none, bestScale := 1 }

/-- The midpoint probed by one iteration of the scale loop (line 76):
`clamp((low + high) / 2, minScale, 1)`. -/
def pngMid (minScale : ℚ) (st : PngState) : ℚ :=
  clamp ((st.low + st.high) / 2) minScale 1

/-- One iteration of the scale bisection loop body (lines 76-85). -/
def pngStep (encode : ℚ → ℕ) (targetBytes minScale : ℚ) (st : PngState) : PngState :=
  let mid := pngMid minScale st
  if (encode mid : ℚ) > targetBytes then { st with high := mid }
  else { st with bestBlob := some (encode mid), bestScale := mid, low := mid }

/-- The scale bisection loop (line 75):
`for (let i = 0; i < maxIterations && high - low > 1e-3; i++)`.
Returns the final state and the list of midpoints probed, in order. -/
def pngRun (encode : ℚ → ℕ) (targetBytes minScale : ℚ) :
    ℕ → PngState → PngState × List ℚ
  | 0, st => (st, [])
  | fuel + 1, st =>
    if st.high - st.low > 1 / 1000 then
      let r := pngRun encode targetBytes minScale fuel (pngStep encode targetBytes minScale st)
      (r.1, pngMid minScale st :: r.2)
    else (st, [])

/-- The scale search of `resizePngToTarget` (lines 50-116) with the optional
UPNG quantizer absent: guess probe, bisection loop, and the floor fallback of
lines 88-93 which renders at `Math.max(minScale, 0.01)` when no probe ever came
in at or under `targetBytes`.  With the quantizer absent, both the
within-buffer return of line 96 and the final fallback of line 115 return
`bestBlob` itself, so the returned blob is `bestBlob` in every case.
Result: ((render scale of the returned blob, its size), scales probed). -/
def pngSearchCore (encode : ℚ → ℕ) (targetBytes bufferBytes minScale : ℚ)
    (maxIterations : ℕ) (guessScale : ℚ) : (ℚ × ℕ) × List ℚ :=
  let st0 := pngInit encode targetBytes guessScale
  let r := pngRun encode targetBytes minScale maxIterations st0
  match r.1.bestBlob with
  | some b => ((r.1.bestScale, b), guessScale :: r.2)
  | none =>
    let s := max minScale (1 / 100)
    ((s, encode s), guessScale :: r.2 ++ [s])

/-- A blob as returned by the modelled `resizePngToTarget`: either the input
blob itself, or a blob rendered by `renderAtScale` at a given scale. -/
inductive PngOutcome where
  | file : PngOutcome
  | enc (scale : ℚ) (size : ℕ) : PngOutcome
deriving Repr, DecidableEq

/-- Observable outcome of one `resizePngToTarget` call: the returned blob,
whether the source was decoded (`loadImage`), and the scales probed. -/
structure PngRunInfo where
  result : PngOutcome
  decoded : Bool
  probes : List ℚ
deriving Repr, DecidableEq

/-- Line 29 of png-resizer.ts:
`targetBytes = Math.max(10 * 1024, Math.min(200 * 1024, targetKB * 1024))`. -/
def pngTargetBytes (targetKB : ℚ) : ℚ :=
  max (10 * 1024) (min (200 * 1024) (targetKB * 1024))

/-- `resizePngToTarget` (png-resizer.ts lines 16-116), UPNG quantizer absent.
`fileSize` is `file.size` in bytes; `sqrtSizeGuess` models the float value
`Math.sqrt(targetBytes / Math.max(1, file.size))` of line 45 (before the line
44 clamp).  The two early returns at lines 33 and 41 bracket the `loadImage`
decode of line 37, hence the `decoded` flags. -/
def resizePngToTarget (fileSize : ℚ) (encode : ℚ → ℕ) (sqrtSizeGuess : ℚ)
    (targetKB bufferKB : ℚ) (maxIterations : ℕ) (minScale : ℚ) : PngRunInfo :=
  let targetBytes := pngTargetBytes targetKB
  let bufferBytes := bufferKB * 1024
  if withinBuffer fileSize targetBytes bufferBytes then
    { result := .file, decoded := false, probes := [] }
  else if fileSize ≤ targetBytes + bufferBytes then
    { result := .file, decoded := true, probes := [] }
  else
    let guessScale := clamp sqrtSizeGuess minScale 1
    let r := pngSearchCore encode targetBytes bufferBytes minScale maxIterations guessScale
    { result := .enc r.1.1 r.1.2, decoded := true, probes := r.2 }

/-! ## Quality search (raster-resizer.ts, `fitByQuality`) -/

/-- The bisection loop of `fitByQuality` (raster-resizer.ts lines 233-247).
`best` is always set on entry (the code reaches the loop only after recording a
candidate).  Returns the best (quality, size) pair and the qualities probed by
the loop; a `null` blob breaks out of the loop returning the current best, a
within-buffer blob returns immediately. -/
def fbqLoop (encodeQ : ℚ → Option ℕ) (targetBytes bufferBytes minQ maxQ : ℚ) :
    ℕ → ℚ → ℚ → ℚ × ℕ → (ℚ × ℕ) × List ℚ
  | 0, _, _, best => (best, [])
  | fuel + 1, lo, hi, best =>
    if hi - lo > 1 / 1000 then
      let mid := clamp ((lo + hi) / 2) minQ maxQ
      match encodeQ mid with
      | none => (best, [mid])
      | some b =>
        if (b : ℚ) > targetBytes + bufferBytes then
          let r := fbqLoop encodeQ targetBytes bufferBytes minQ maxQ fuel lo mid best
          (r.1, mid :: r.2)
        else if withinBuffer (b : ℚ) targetBytes bufferBytes then ((mid, b), [mid])
        else
          let r := fbqLoop encodeQ targetBytes bufferBytes minQ maxQ fuel mid hi (mid, b)
          (r.1, mid :: r.2)
    else (best, [])

/-- `fitByQuality` (raster-resizer.ts lines 201-249).  `encodeQ q` is the size
of `canvas.toBlob(mime, q)` on the fixed canvas, `none` when the blob is null.
Returns the (quality, size) pair of the returned blob (or `none`) and the
qualities probed, in order.  Mirrors the source: probe `minQ` (early `none` on
null or ceiling overshoot, early return within buffer), probe `maxQ` (take it
as best when it fits the ceiling, narrowing `lo` to `(hi + lo) / 2`), then the
bisection loop. -/
def fitByQuality (encodeQ : ℚ → Option ℕ) (targetBytes bufferBytes minQ maxQ : ℚ)
    (iterations : ℕ) : Option (ℚ × ℕ) × List ℚ :=
  match encodeQ minQ with
  | none => (none, [minQ])
  | some m =>
    if (m : ℚ) > targetBytes + bufferBytes then (none, [minQ])
    else if withinBuffer (m : ℚ) targetBytes bufferBytes then (some (minQ, m), [minQ])
    else
      match encodeQ maxQ with
      | some mx =>
        if (mx : ℚ) ≤ targetBytes + bufferBytes then
          if withinBuffer (mx : ℚ) targetBytes bufferBytes then (some (maxQ, mx), [minQ, maxQ])
          else
            let r := fbqLoop encodeQ targetBytes bufferBytes minQ maxQ iterations
              ((maxQ + minQ) / 2) maxQ (maxQ, mx)
            (some r.1, minQ :: maxQ :: r.2)
        else
          let r := fbqLoop encodeQ targetBytes bufferBytes minQ maxQ iterations
            minQ maxQ (minQ, m)
          (some r.1, minQ :: maxQ :: r.2)
      | none =>
        let r := fbqLoop encodeQ targetBytes bufferBytes minQ maxQ iterations
          minQ maxQ (minQ, m)
        (some r.1, minQ :: maxQ :: r.2)

/-! ## Raster scale search (raster-resizer.ts, `resizeRasterToTarget`) -/

/-- The mutable locals of the phase-B scale search (raster-resizer.ts lines
85-88): `low`, `high`, `bestBlob`, `bestScale`.  `bestBlob` carries the
(quality, size) of the blob `fitByQuality` returned at `bestScale`. -/
structure RState where
  low : ℚ
  high : ℚ
  bestBlob : Option (ℚ × ℕ)
  bestScale : ℚ
deriving Repr, DecidableEq

/-- The `tryScale` helper (lines 91-103): render at scale `s` and run
`fitByQuality` there.  The probe trace is tagged with the scale. -/
def tryScale (encode : ℚ → ℚ → Option ℕ) (targetBytes bufferBytes minQ maxQ : ℚ)
    (qualityIterations : ℕ) (s : ℚ) : Option (ℚ × ℕ) × List (ℚ × ℚ) :=
  let r := fitByQuality (encode s) targetBytes bufferBytes minQ maxQ qualityIterations
  (r.1, r.2.map (fun q => (s, q)))

/-- Result of the phase-B scale loop: either the final state, or the early
return of line 138 (`if (withinBuffer(b.size, ...)) return b`).  The source
assigns `bestBlob = b; bestScale = mid` just before that early return; since
the function returns `b` at once, the stored state is unobservable, so the
early return is modelled as carrying the returned probe. -/
inductive RLoopOut where
  | done (st : RState) : RLoopOut
  | early (scale quality : ℚ) (size : ℕ) : RLoopOut
deriving Repr, DecidableEq

/-- The phase-B scale bisection loop (lines 123-141):
`for (let i = 0; i < scaleIterations && high - low > 1e-3; i++)`. -/
def rLoop (encode : ℚ → ℚ → Option ℕ) (targetBytes bufferBytes minQ maxQ : ℚ)
    (qualityIterations : ℕ) (minScale : ℚ) :
    ℕ → RState → RLoopOut × List (ℚ × ℚ)
  | 0, st => (.done st, [])
  | fuel + 1, st =>
    if st.high - st.low > 1 / 1000 then
      let mid := clamp ((st.low + st.high) / 2) minScale 1
      let t := tryScale encode targetBytes bufferBytes minQ maxQ qualityIterations mid
      match t.1 with
      | none =>
        let r := rLoop encode targetBytes bufferBytes minQ maxQ qualityIterations minScale
          fuel { st with high := mid }
        (r.1, t.2 ++ r.2)
      | some (q, sz) =>
        if (sz : ℚ) > targetBytes + bufferBytes then
          let r := rLoop encode targetBytes bufferBytes minQ maxQ qualityIterations minScale
            fuel { st with high := mid }
          (r.1, t.2 ++ r.2)
        else if withinBuffer (sz : ℚ) targetBytes bufferBytes then (.early mid q sz, t.2)
        else
          let r := rLoop encode targetBytes bufferBytes minQ maxQ qualityIterations minScale
            fuel { st with bestBlob := some (q, sz), bestScale := mid, low := mid }
          (r.1, t.2 ++ r.2)
    else (.done st, [])

/-- The phase-B bracket seeding (lines 106-116): probe once at
`mid0 = Math.max(minScale, Math.sqrt(targetBytes / Math.max(1, file.size)))`;
if the probe exists and fits the ceiling, record it as best and set
`low = mid0`; otherwise set `high = mid0`.  Initial values (lines 85-88):
`low = minScale`, `high = 1`, `bestScale = low`. -/
def rasterInitState (encode : ℚ → ℚ → Option ℕ) (targetBytes bufferBytes minQ maxQ : ℚ)
    (qualityIterations : ℕ) (minScale mid0 : ℚ) : RState × List (ℚ × ℚ) :=
  let t := tryScale encode targetBytes bufferBytes minQ maxQ qualityIterations mid0
  match t.1 with
  | some (q, sz) =>
    if (sz : ℚ) ≤ targetBytes + bufferBytes then
      ({ low := mid0, high := 1, bestBlob := some (q, sz), bestScale := mid0 }, t.2)
    else ({ low := minScale, high := mid0, bestBlob := none, bestScale := minScale }, t.2)
  | none => ({ low := minScale, high := mid0, bestBlob := none, bestScale := minScale }, t.2)

/-- A blob as returned by the modelled `resizeRasterToTarget`: the input blob,
or a blob encoded at a given (scale, quality). -/
inductive RasterOutcome where
  | file : RasterOutcome
  | enc (scale quality : ℚ) (size : ℕ) : RasterOutcome
deriving Repr, DecidableEq

/-- Observable outcome of one `resizeRasterToTarget` call: the returned blob,
whether the source was decoded, and the (scale, quality) encode calls made. -/
structure RasterRunInfo where
  result : RasterOutcome
  decoded : Bool
  trace : List (ℚ × ℚ)
deriving Repr, DecidableEq

/-- `resizeRasterToTarget` (raster-resizer.ts lines 37-154), shared by
`resizeJpegToTarget` and `resizeWebpToTarget`.  `targetBytes = max(1,
targetKB * 1024)` (line 52).  The quick pass of line 56 returns the input
before any decode.  Phase A runs `fitByQuality` on the full-resolution canvas
(scale 1).  Line 80 returns a within-buffer phase-A fit; line 106 enters phase
B exactly when phase A produced nothing under the ceiling, otherwise line 120
returns the phase-A fit.  Phase B seeds the bracket, loops, then returns
`bestBlob` (line 144) or the `minScale`/`minQuality` floor render of lines
147-153 (`tiny ?? file`).  `sqrtSizeGuess` models the float
`Math.sqrt(targetBytes / Math.max(1, file.size))` of line 108;
`testMimeSupport` and the mime fallback are capability plumbing outside the
search core, so `encode` is the effective encoder. -/
def resizeRasterToTarget (fileSize : ℚ) (encode : ℚ → ℚ → Option ℕ) (sqrtSizeGuess : ℚ)
    (targetKB bufferKB minQuality maxQuality : ℚ) (qualityIterations : ℕ)
    (minScale : ℚ) (scaleIterations : ℕ) : RasterRunInfo :=
  let targetBytes := max 1 (targetKB * 1024)
  let bufferBytes := bufferKB * 1024
  if withinBuffer fileSize targetBytes bufferBytes then
    { result := .file, decoded := false, trace := [] }
  else
    let tA := tryScale encode targetBytes bufferBytes minQuality maxQuality qualityIterations 1
    let phaseB : RasterRunInfo :=
      let mid0 := max minScale sqrtSizeGuess
      let ini := rasterInitState encode targetBytes bufferBytes minQuality maxQuality
        qualityIterations minScale mid0
      let r := rLoop encode targetBytes bufferBytes minQuality maxQuality qualityIterations
        minScale scaleIterations ini.1
      match r.1 with
      | .early s q sz =>
        { result := .enc s q sz, decoded := true, trace := tA.2 ++ ini.2 ++ r.2 }
      | .done st =>
        match st.bestBlob with
        | some (q, sz) =>
          { result := .enc st.bestScale q sz, decoded := true, trace := tA.2 ++ ini.2 ++ r.2 }
        | none =>
          match encode minScale minQuality with
          | some sz =>
            { result := .enc minScale minQuality sz, decoded := true,
              trace := tA.2 ++ ini.2 ++ r.2 ++ [(minScale, minQuality)] }
          | none =>
            { result := .file, decoded := true,
              trace := tA.2 ++ ini.2 ++ r.2 ++ [(minScale, minQuality)] }
    match tA.1 with
    | some (q, sz) =>
      if withinBuffer (sz : ℚ) targetBytes bufferBytes then
        { result := .enc 1 q sz, decoded := true, trace := tA.2 }
      else if (sz : ℚ) > targetBytes + bufferBytes then phaseB
      else { result := .enc 1 q sz, decoded := true, trace := tA.2 }
    | none => phaseB

/-- The synthetic encoder of spec §8 scenario 6: `size(scale) = 500KB · scale²`
with the original at 500 KB = 512000 bytes; byte sizes are truncated to
naturals. -/
def synthSize (s : ℚ) : ℕ := (512000 * s ^ 2 : ℚ).floor.toNat

/-! ## Helper lemmas about `clamp` -/

lemma le_clamp (x a b : ℚ) : a ≤ clamp x a b := le_max_left _ _

lemma clamp_le_of_le {a b : ℚ} (x : ℚ) (h : a ≤ b) : clamp x a b ≤ b :=
  max_le h (min_le_left _ _)

lemma lt_clamp {x b c : ℚ} (a : ℚ) (hx : c < x) (hb : c < b) : c < clamp x a b :=
  lt_of_lt_of_le (lt_min hb hx) (le_max_right _ _)

lemma clamp_le {x a b c : ℚ} (hx : x ≤ c) (ha : a ≤ c) : clamp x a b ≤ c :=
  max_le ha (le_trans (min_le_right _ _) hx)

lemma clamp_lt {x a b c : ℚ} (hx : x < c) (ha : a < c) : clamp x a b < c :=
  max_lt ha (lt_of_le_of_lt (min_le_right _ _) hx)

/-! ## Invariants of the PNG scale bisection loop -/

lemma pngMid_ge (minScale : ℚ) (st : PngState) : minScale ≤ pngMid minScale st :=
  le_clamp _ _ _

lemma pngMid_le_one {minScale : ℚ} (st : PngState) (h : minScale ≤ 1) :
    pngMid minScale st ≤ 1 :=
  clamp_le_of_le _ h

lemma lt_pngMid {minScale : ℚ} {st : PngState} (hlh : st.low < st.high)
    (hh1 : st.high ≤ 1) : st.low < pngMid minScale st := by
  refine lt_clamp _ (by linarith) (by linarith)

lemma pngMid_le_high {minScale : ℚ} {st : PngState} (hlh : st.low < st.high)
    (hmh : minScale ≤ st.high) : pngMid minScale st ≤ st.high := by
  refine clamp_le (by linarith) hmh

/-- Main characterization of the PNG scale bisection loop `pngRun`: bracket
monotonicity, probe bounds, and tracking of the best-so-far probe.  The five
conclusions are, in order:

1. bracket facts: `high ≤ 1`, `minScale ≤ high`, `low` non-decreasing, `high`
   non-increasing, `low ≤ high`;
2. every probed midpoint is in `[minScale, 1]` and above the entry `low`;
3. if the final best is unset, it was unset on entry, `low` and `bestScale`
   are untouched, and every probe overshot the target;
4. if the final best is set, it is the blob of the last conformant probe (a
   probed midpoint, conformant, equal to `low`), or it was inherited
   unchanged from the entry state;
5. every conformant probe is at most the final `low`. -/
lemma pngRun_spec (encode : ℚ → ℕ) (T minS : ℚ) (hminS : minS ≤ 1) :
    ∀ (fuel : ℕ) (st st' : PngState) (mids : List ℚ),
      pngRun encode T minS fuel st = (st', mids) →
      st.high ≤ 1 → minS ≤ st.high → st.low ≤ st.high →
      (st'.high ≤ 1 ∧ minS ≤ st'.high ∧ st.low ≤ st'.low ∧ st'.high ≤ st.high ∧
        st'.low ≤ st'.high)
      ∧ (∀ m ∈ mids, minS ≤ m ∧ m ≤ 1 ∧ st.low < m)
      ∧ (st'.bestBlob = none →
           st.bestBlob = none ∧ st'.low = st.low ∧ st'.bestScale = st.bestScale ∧
           ∀ m ∈ mids, T < (encode m : ℚ))
      ∧ (∀ b, st'.bestBlob = some b →
           ((st'.bestScale ∈ mids ∧ b = encode st'.bestScale ∧ (b : ℚ) ≤ T ∧
              st'.low = st'.bestScale)
            ∨ (st.bestBlob = some b ∧ st'.bestScale = st.bestScale ∧ st'.low = st.low)))
      ∧ (∀ m ∈ mids, (encode m : ℚ) ≤ T → m ≤ st'.low) := by
  intro fuel
  induction fuel with
  | zero =>
    intro st st' mids heq h1 h2 h3
    simp only [pngRun] at heq
    obtain ⟨rfl, rfl⟩ := Prod.mk.injEq .. ▸ heq
    refine ⟨⟨h1, h2, le_refl _, le_refl _, h3⟩, by simp, by simp, ?_, by simp⟩
    intro b hb
    exact Or.inr ⟨hb, rfl, rfl⟩
  | succ n ih =>
    intro st st' mids heq h1 h2 h3
    simp only [pngRun] at heq
    by_cases hc : st.high - st.low > 1 / 1000
    · rw [if_pos hc] at heq
      have hlh : st.low < st.high := by linarith
      have hmid_lo : minS ≤ pngMid minS st := pngMid_ge _ _
      have hmid_hi : pngMid minS st ≤ 1 := pngMid_le_one _ hminS
      have hmid_gt : st.low < pngMid minS st := lt_pngMid hlh h1
      have hmid_le : pngMid minS st ≤ st.high := pngMid_le_high hlh h2
      obtain ⟨st'', mids', heq'⟩ :
          ∃ a b, pngRun encode T minS n (pngStep encode T minS st) = (a, b) :=
        ⟨_, _, rfl⟩
      rw [heq'] at heq
      obtain ⟨rfl, rfl⟩ := Prod.mk.injEq .. ▸ heq
      by_cases hm : (encode (pngMid minS st) : ℚ) > T
      · -- overshoot: high := mid
        have hstep : pngStep encode T minS st = { st with high := pngMid minS st } := by
          simp only [pngStep]
          rw [if_pos hm]
        rw [hstep] at heq'
        obtain ⟨hbr, hmem, hnone, hsome, hconf⟩ :=
          ih _ _ _ heq' hmid_hi hmid_lo (le_of_lt hmid_gt)
        refine ⟨⟨hbr.1, hbr.2.1, hbr.2.2.1, le_trans hbr.2.2.2.1 hmid_le, hbr.2.2.2.2⟩,
          ?_, ?_, ?_, ?_⟩
        · intro m hmem'
          rcases List.mem_cons.mp hmem' with rfl | hmem'
          · exact ⟨hmid_lo, hmid_hi, hmid_gt⟩
          · exact (hmem m hmem')
        · intro hn
          obtain ⟨ha, hb2, hc2, hd⟩ := hnone hn
          refine ⟨ha, hb2, hc2, ?_⟩
          intro m hmem'
          rcases List.mem_cons.mp hmem' with rfl | hmem'
          · exact hm
          · exact hd m hmem'
        · intro b hb
          rcases hsome b hb with h | h
          · exact Or.inl ⟨List.mem_cons_of_mem _ h.1, h.2⟩
          · exact Or.inr h
        · intro m hmem' hconf'
          rcases List.mem_cons.mp hmem' with rfl | hmem'
          · exact absurd hconf' (not_le.mpr hm)
          · exact hconf m hmem' hconf'
      · -- conformant: best := mid, low := mid
        push_neg at hm
        have hstep : pngStep encode T minS st =
            { st with
                bestBlob := some (encode (pngMid minS st))
                bestScale := pngMid minS st
                low := pngMid minS st } := by
          simp only [pngStep]
          rw [if_neg (not_lt.mpr hm)]
        rw [hstep] at heq'
        obtain ⟨hbr, hmem, hnone, hsome, hconf⟩ :=
          ih _ _ _ heq' h1 h2 hmid_le
        refine ⟨⟨hbr.1, hbr.2.1, le_trans (le_of_lt hmid_gt) hbr.2.2.1, hbr.2.2.2.1,
          hbr.2.2.2.2⟩, ?_, ?_, ?_, ?_⟩
        · intro m hmem'
          rcases List.mem_cons.mp hmem' with rfl | hmem'
          · exact ⟨hmid_lo, hmid_hi, hmid_gt⟩
          · obtain ⟨x1, x2, x3⟩ := hmem m hmem'
            exact ⟨x1, x2, lt_trans hmid_gt x3⟩
        · intro hn
          obtain ⟨ha, _, _, _⟩ := hnone hn
          exact absurd ha (by simp)
        · intro b hb
          rcases hsome b hb with h | h
          · exact Or.inl ⟨List.mem_cons_of_mem _ h.1, h.2⟩
          · obtain ⟨ha, hb2, hc2⟩ := h
            have hbe : b = encode (pngMid minS st) := by
              simpa using ha.symm
            refine Or.inl ⟨?_, ?_, ?_, ?_⟩
            · rw [hb2]; exact List.mem_cons_self _ _
            · rw [hb2, hbe]
            · rw [hbe]; exact_mod_cast hm
            · rw [hc2, hb2]
        · intro m hmem' hconf'
          rcases List.mem_cons.mp hmem' with rfl | hmem'
          · simpa using hbr.2.2.1
          · exact hconf m hmem' hconf'
    · rw [if_neg hc] at heq
      obtain ⟨rfl, rfl⟩ := Prod.mk.injEq .. ▸ heq
      refine ⟨⟨h1, h2, le_refl _, le_refl _, h3⟩, by simp, by simp, ?_, by simp⟩
      intro b hb
      exact Or.inr ⟨hb, rfl, rfl⟩

/-- If every encode result overshoots the target, the loop never records a
best blob: `bestBlob` and `bestScale` keep their entry values. -/
lemma pngRun_none (encode : ℚ → ℕ) (T minS : ℚ) (h : ∀ s, T < (encode s : ℚ)) :
    ∀ (fuel : ℕ) (st st' : PngState) (mids : List ℚ),
      pngRun encode T minS fuel st = (st', mids) →
      st'.bestBlob = st.bestBlob ∧ st'.bestScale = st.bestScale := by
  intro fuel
  induction fuel with
  | zero =>
    intro st st' mids heq
    simp only [pngRun] at heq
    obtain ⟨rfl, rfl⟩ := Prod.mk.injEq .. ▸ heq
    exact ⟨rfl, rfl⟩
  | succ n ih =>
    intro st st' mids heq
    simp only [pngRun] at heq
    by_cases hc : st.high - st.low > 1 / 1000
    · rw [if_pos hc] at heq
      obtain ⟨st'', mids', heq'⟩ :
          ∃ a b, pngRun encode T minS n (pngStep encode T minS st) = (a, b) :=
        ⟨_, _, rfl⟩
      rw [heq'] at heq
      obtain ⟨rfl, rfl⟩ := Prod.mk.injEq .. ▸ heq
      have hstep : pngStep encode T minS st = { st with high := pngMid minS st } := by
        simp only [pngStep]
        rw [if_pos (h (pngMid minS st))]
      rw [hstep] at heq'
      simpa using ih _ _ _ heq'
    · rw [if_neg hc] at heq
      obtain ⟨rfl, rfl⟩ := Prod.mk.injEq .. ▸ heq
      exact ⟨rfl, rfl⟩

/-- Claim C1 (confirmed): for every encode function, whenever at least one
observed probe of `resizePngToTarget`'s scale search (the guess probe, a
midpoint probe, or the floor probe) came in at or under `targetBytes`, the
blob the search retains and returns — with the quantization refinement absent,
i.e. not replacing it — is the probe of the largest scale among all observed
probes whose size was at or under `targetBytes`. -/
theorem C1_returns_largest_conformant_scale (encode : ℚ → ℕ)
    (targetBytes bufferBytes minScale : ℚ) (maxIterations : ℕ) (guessScale : ℚ)
    (hminS : minScale ≤ 1) (hg0 : 0 ≤ guessScale) (hg1 : minScale ≤ guessScale)
    (hg2 : guessScale ≤ 1) :
    ∀ (p : ℚ × ℕ) (probes : List ℚ),
      pngSearchCore encode targetBytes bufferBytes minScale maxIterations guessScale
        = (p, probes) →
      (∃ s ∈ probes, (encode s : ℚ) ≤ targetBytes) →
      p.2 = encode p.1 ∧ (encode p.1 : ℚ) ≤ targetBytes ∧ p.1 ∈ probes ∧
        ∀ s ∈ probes, (encode s : ℚ) ≤ targetBytes → s ≤ p.1 := by
  intro p probes hcore hex
  obtain ⟨st', mids, heq⟩ :
      ∃ a b, pngRun encode targetBytes minScale maxIterations
        (pngInit encode targetBytes guessScale) = (a, b) := ⟨_, _, rfl⟩
  by_cases hguess : (encode guessScale : ℚ) ≤ targetBytes
  · have hinit : pngInit encode targetBytes guessScale =
        { low := guessScale, high := 1, bestBlob := some (encode guessScale),
          bestScale := guessScale } := by
      simp only [pngInit]
      rw [if_pos hguess]
    have heq1 := heq
    rw [hinit] at heq1
    obtain ⟨hbr, hmem, hnone, hsome, hconf⟩ :=
      pngRun_spec encode targetBytes minScale hminS _ _ _ _ heq1
        (le_refl 1) hminS hg2
    have hne : st'.bestBlob ≠ none := by
      intro hn
      have := (hnone hn).1
      simp at this
    obtain ⟨b, hb⟩ := Option.ne_none_iff_exists'.mp hne
    simp only [pngSearchCore, heq, hb] at hcore
    obtain ⟨rfl, rfl⟩ := Prod.mk.injEq .. ▸ hcore
    rcases hsome b hb with ⟨hm_mem, hbe, hble, hlow⟩ | ⟨hsb, hbsc, hlow2⟩
    · refine ⟨hbe, by rw [← hbe]; exact hble, List.mem_cons_of_mem _ hm_mem, ?_⟩
      intro s hs hcs
      rcases List.mem_cons.mp hs with rfl | hs
      · calc s ≤ st'.low := by simpa using hbr.2.2.1
          _ = st'.bestScale := hlow
      · exact le_of_le_of_eq (hconf s hs hcs) hlow
    · have hbg : b = encode guessScale := by simpa using hsb.symm
      refine ⟨by rw [hbg, hbsc], by rw [hbsc]; exact hguess, ?_, ?_⟩
      · rw [hbsc]; exact List.mem_cons_self _ _
      · intro s hs hcs
        rcases List.mem_cons.mp hs with rfl | hs
        · rw [hbsc]
        · calc s ≤ st'.low := hconf s hs hcs
            _ = guessScale := by simpa using hlow2
            _ = st'.bestScale := hbsc.symm
  · have hinit : pngInit encode targetBytes guessScale =
        { low := 0, high := guessScale, bestBlob := none, bestScale := 1 } := by
      simp only [pngInit]
      rw [if_neg hguess]
    have heq1 := heq
    rw [hinit] at heq1
    obtain ⟨hbr, hmem, hnone, hsome, hconf⟩ :=
      pngRun_spec encode targetBytes minScale hminS _ _ _ _ heq1 hg2 hg1 hg0
    cases hcase : st'.bestBlob with
    | some b =>
      simp only [pngSearchCore, heq, hcase] at hcore
      obtain ⟨rfl, rfl⟩ := Prod.mk.injEq .. ▸ hcore
      rcases hsome b hcase with ⟨hm_mem, hbe, hble, hlow⟩ | ⟨hsb, _, _⟩
      · refine ⟨hbe, by rw [← hbe]; exact hble, List.mem_cons_of_mem _ hm_mem, ?_⟩
        intro s hs hcs
        rcases List.mem_cons.mp hs with rfl | hs
        · exact absurd hcs hguess
        · exact le_of_le_of_eq (hconf s hs hcs) hlow
      · simp at hsb
    | none =>
      obtain ⟨_, _, _, hover⟩ := hnone hcase
      simp only [pngSearchCore, heq, hcase] at hcore
      obtain ⟨rfl, rfl⟩ := Prod.mk.injEq .. ▸ hcore
      refine ⟨rfl, ?_, ?_, ?_⟩
      · -- the conformant witness of hex must be the floor probe
        obtain ⟨s, hs, hcs⟩ := hex
        rcases List.mem_cons.mp hs with rfl | hs
        · exact absurd hcs hguess
        · rcases List.mem_append.mp hs with hs | hs
          · exact absurd hcs (not_le.mpr (hover s hs))
          · rw [List.mem_singleton.mp hs] at hcs
            exact hcs
      · exact List.mem_cons_of_mem _ (List.mem_append_right _ (List.mem_singleton_self _))
      · intro s hs hcs
        rcases List.mem_cons.mp hs with rfl | hs
        · exact absurd hcs hguess
        · rcases List.mem_append.mp hs with hs | hs
          · exact absurd hcs (not_le.mpr (hover s hs))
          · exact le_of_eq (List.mem_singleton.mp hs)

/-- Witness for C1 at a concrete instance: constant encoder of size 100,
target 1000, guess probe 1/2, one loop iteration probing 3/4; both probes are
conformant and the search returns the larger scale 3/4. -/
theorem C1_witness :
    ((1 : ℚ) / 20 ≤ 1 ∧ (0 : ℚ) ≤ 1 / 2 ∧ (1 : ℚ) / 20 ≤ 1 / 2 ∧ (1 : ℚ) / 2 ≤ 1 ∧
      pngSearchCore (fun _ => 100) 1000 0 (1 / 20) 1 (1 / 2)
        = ((3 / 4, 100), [1 / 2, 3 / 4]) ∧
      (∃ s ∈ [(1 : ℚ) / 2, 3 / 4], (((fun _ => 100) : ℚ → ℕ) s : ℚ) ≤ 1000)) ∧
    ((100 : ℕ) = (fun _ => 100 : ℚ → ℕ) ((3 : ℚ) / 4) ∧
      ((((fun _ => 100) : ℚ → ℕ) ((3 : ℚ) / 4) : ℕ) : ℚ) ≤ 1000 ∧
      ((3 : ℚ) / 4, (100 : ℕ)).1 ∈ [(1 : ℚ) / 2, 3 / 4] ∧
      ∀ s ∈ [(1 : ℚ) / 2, 3 / 4],
        (((fun _ => 100 : ℚ → ℕ) s : ℕ) : ℚ) ≤ 1000 → s ≤ ((3 : ℚ) / 4, (100 : ℕ)).1) :=
  ⟨⟨by norm_num, by norm_num, by norm_num, by norm_num, by decide, by decide⟩,
    C1_returns_largest_conformant_scale (fun _ => 100) 1000 0 (1 / 20) 1 (1 / 2)
      (by norm_num) (by norm_num) (by norm_num) (by norm_num)
      ((3 / 4, 100)) [1 / 2, 3 / 4] (by decide) (by decide)⟩

/-! ## Invariants of the quality bisection loop -/

/-- Every quality probed by the `fitByQuality` bisection loop lies inside the
configured `[minQ, maxQ]` bounds (the source clamps each midpoint). -/
lemma fbqLoop_probes (e : ℚ → Option ℕ) (T B minQ maxQ : ℚ) (hq : minQ ≤ maxQ) :
    ∀ (fuel : ℕ) (lo hi : ℚ) (best res : ℚ × ℕ) (probes : List ℚ),
      fbqLoop e T B minQ maxQ fuel lo hi best = (res, probes) →
      ∀ q ∈ probes, minQ ≤ q ∧ q ≤ maxQ := by
  intro fuel
  induction fuel with
  | zero =>
    intro lo hi best res probes heq
    simp only [fbqLoop] at heq
    obtain ⟨rfl, rfl⟩ := Prod.mk.injEq .. ▸ heq
    simp
  | succ n ih =>
    intro lo hi best res probes heq
    simp only [fbqLoop] at heq
    by_cases hc : hi - lo > 1 / 1000
    · rw [if_pos hc] at heq
      have hmid_lo : minQ ≤ clamp ((lo + hi) / 2) minQ maxQ := le_clamp _ _ _
      have hmid_hi : clamp ((lo + hi) / 2) minQ maxQ ≤ maxQ := clamp_le_of_le _ hq
      rcases hmid : e (clamp ((lo + hi) / 2) minQ maxQ) with _ | b
      · simp only [hmid] at heq
        obtain ⟨rfl, rfl⟩ := Prod.mk.injEq .. ▸ heq
        intro q hqm
        rw [List.mem_singleton.mp hqm]
        exact ⟨hmid_lo, hmid_hi⟩
      · simp only [hmid] at heq
        by_cases hover : (b : ℚ) > T + B
        · rw [if_pos hover] at heq
          obtain ⟨res', probes', heq'⟩ :
              ∃ a c, fbqLoop e T B minQ maxQ n lo (clamp ((lo + hi) / 2) minQ maxQ) best
                = (a, c) := ⟨_, _, rfl⟩
          rw [heq'] at heq
          obtain ⟨rfl, rfl⟩ := Prod.mk.injEq .. ▸ heq
          intro q hqm
          rcases List.mem_cons.mp hqm with rfl | hqm
          · exact ⟨hmid_lo, hmid_hi⟩
          · exact ih _ _ _ _ _ heq' q hqm
        · rw [if_neg hover] at heq
          by_cases hwin : withinBuffer (b : ℚ) T B
          · rw [if_pos hwin] at heq
            obtain ⟨rfl, rfl⟩ := Prod.mk.injEq .. ▸ heq
            intro q hqm
            rw [List.mem_singleton.mp hqm]
            exact ⟨hmid_lo, hmid_hi⟩
          · rw [if_neg hwin] at heq
            obtain ⟨res', probes', heq'⟩ :
                ∃ a c, fbqLoop e T B minQ maxQ n (clamp ((lo + hi) / 2) minQ maxQ) hi
                  (clamp ((lo + hi) / 2) minQ maxQ, b) = (a, c) := ⟨_, _, rfl⟩
            rw [heq'] at heq
            obtain ⟨rfl, rfl⟩ := Prod.mk.injEq .. ▸ heq
            intro q hqm
            rcases List.mem_cons.mp hqm with rfl | hqm
            · exact ⟨hmid_lo, hmid_hi⟩
            · exact ih _ _ _ _ _ heq' q hqm
    · rw [if_neg hc] at heq
      obtain ⟨rfl, rfl⟩ := Prod.mk.injEq .. ▸ heq
      simp

/-- Downward tracking of the `fitByQuality` loop: the returned pair is a real,
ceiling-conformant probe — the entry best or one of the loop's probes. -/
lemma fbqLoop_basic (e : ℚ → Option ℕ) (T B minQ maxQ : ℚ) :
    ∀ (fuel : ℕ) (lo hi : ℚ) (best res : ℚ × ℕ) (probes : List ℚ),
      fbqLoop e T B minQ maxQ fuel lo hi best = (res, probes) →
      e best.1 = some best.2 → (best.2 : ℚ) ≤ T + B →
      (e res.1 = some res.2 ∧ (res.2 : ℚ) ≤ T + B) ∧ (res = best ∨ res.1 ∈ probes) := by
  intro fuel
  induction fuel with
  | zero =>
    intro lo hi best res probes heq hbe hble
    simp only [fbqLoop] at heq
    obtain ⟨rfl, rfl⟩ := Prod.mk.injEq .. ▸ heq
    exact ⟨⟨hbe, hble⟩, Or.inl rfl⟩
  | succ n ih =>
    intro lo hi best res probes heq hbe hble
    simp only [fbqLoop] at heq
    by_cases hc : hi - lo > 1 / 1000
    · rw [if_pos hc] at heq
      rcases hmid : e (clamp ((lo + hi) / 2) minQ maxQ) with _ | b
      · simp only [hmid] at heq
        obtain ⟨rfl, rfl⟩ := Prod.mk.injEq .. ▸ heq
        exact ⟨⟨hbe, hble⟩, Or.inl rfl⟩
      · simp only [hmid] at heq
        by_cases hover : (b : ℚ) > T + B
        · rw [if_pos hover] at heq
          obtain ⟨res', probes', heq'⟩ :
              ∃ a c, fbqLoop e T B minQ maxQ n lo (clamp ((lo + hi) / 2) minQ maxQ) best
                = (a, c) := ⟨_, _, rfl⟩
          rw [heq'] at heq
          obtain ⟨rfl, rfl⟩ := Prod.mk.injEq .. ▸ heq
          obtain ⟨h1, h2⟩ := ih _ _ _ _ _ heq' hbe hble
          exact ⟨h1, h2.imp id (List.mem_cons_of_mem _)⟩
        · rw [if_neg hover] at heq
          by_cases hwin : withinBuffer (b : ℚ) T B
          · rw [if_pos hwin] at heq
            obtain ⟨rfl, rfl⟩ := Prod.mk.injEq .. ▸ heq
            exact ⟨⟨hmid, not_lt.mp hover⟩, Or.inr (List.mem_singleton_self _)⟩
          · rw [if_neg hwin] at heq
            obtain ⟨res', probes', heq'⟩ :
                ∃ a c, fbqLoop e T B minQ maxQ n (clamp ((lo + hi) / 2) minQ maxQ) hi
                  (clamp ((lo + hi) / 2) minQ maxQ, b) = (a, c) := ⟨_, _, rfl⟩
            rw [heq'] at heq
            obtain ⟨rfl, rfl⟩ := Prod.mk.injEq .. ▸ heq
            obtain ⟨h1, h2⟩ := ih _ _ _ _ _ heq' hmid (not_lt.mp hover)
            refine ⟨h1, ?_⟩
            rcases h2 with h2 | h2
            · exact Or.inr (by rw [h2]; exact List.mem_cons_self _ _)
            · exact Or.inr (List.mem_cons_of_mem _ h2)
    · rw [if_neg hc] at heq
      obtain ⟨rfl, rfl⟩ := Prod.mk.injEq .. ▸ heq
      exact ⟨⟨hbe, hble⟩, Or.inl rfl⟩

/-- Maximality tracking of the `fitByQuality` loop under the invariant
`lo = best.1` (which the source establishes whenever it records a best and
raises the floor): the returned quality dominates the entry best and every
conformant quality the loop probed. -/
lemma fbqLoop_max (e : ℚ → Option ℕ) (T B minQ maxQ : ℚ) :
    ∀ (fuel : ℕ) (lo hi : ℚ) (best res : ℚ × ℕ) (probes : List ℚ),
      fbqLoop e T B minQ maxQ fuel lo hi best = (res, probes) →
      minQ ≤ lo → hi ≤ maxQ → lo = best.1 →
      best.1 ≤ res.1 ∧
      ∀ p ∈ probes, ∀ k, e p = some k → (k : ℚ) ≤ T + B → p ≤ res.1 := by
  intro fuel
  induction fuel with
  | zero =>
    intro lo hi best res probes heq _ _ _
    simp only [fbqLoop] at heq
    obtain ⟨rfl, rfl⟩ := Prod.mk.injEq .. ▸ heq
    simp
  | succ n ih =>
    intro lo hi best res probes heq hlo hhi hlb
    simp only [fbqLoop] at heq
    by_cases hc : hi - lo > 1 / 1000
    · rw [if_pos hc] at heq
      have hlh : lo < hi := by linarith
      have hmid_gt : lo < clamp ((lo + hi) / 2) minQ maxQ :=
        lt_clamp _ (by linarith) (by linarith)
      have hmid_hi : clamp ((lo + hi) / 2) minQ maxQ ≤ maxQ :=
        clamp_le_of_le _ (le_trans hlo (le_of_lt (lt_of_lt_of_le hlh hhi)))
      rcases hmid : e (clamp ((lo + hi) / 2) minQ maxQ) with _ | b
      · simp only [hmid] at heq
        obtain ⟨rfl, rfl⟩ := Prod.mk.injEq .. ▸ heq
        refine ⟨le_refl _, ?_⟩
        intro p hp k hk
        rw [List.mem_singleton.mp hp] at hk
        rw [hmid] at hk
        exact absurd hk (by simp)
      · simp only [hmid] at heq
        by_cases hover : (b : ℚ) > T + B
        · rw [if_pos hover] at heq
          obtain ⟨res', probes', heq'⟩ :
              ∃ a c, fbqLoop e T B minQ maxQ n lo (clamp ((lo + hi) / 2) minQ maxQ) best
                = (a, c) := ⟨_, _, rfl⟩
          rw [heq'] at heq
          obtain ⟨rfl, rfl⟩ := Prod.mk.injEq .. ▸ heq
          obtain ⟨h1, h2⟩ := ih _ _ _ _ _ heq' hlo hmid_hi hlb
          refine ⟨h1, ?_⟩
          intro p hp k hk hkle
          rcases List.mem_cons.mp hp with rfl | hp
          · rw [hmid] at hk
            obtain rfl : b = k := by simpa using hk
            exact absurd hkle (not_le.mpr hover)
          · exact h2 p hp k hk hkle
        · rw [if_neg hover] at heq
          by_cases hwin : withinBuffer (b : ℚ) T B
          · rw [if_pos hwin] at heq
            obtain ⟨rfl, rfl⟩ := Prod.mk.injEq .. ▸ heq
            refine ⟨by rw [← hlb]; exact le_of_lt hmid_gt, ?_⟩
            intro p hp k _ _
            rw [List.mem_singleton.mp hp]
          · rw [if_neg hwin] at heq
            obtain ⟨res', probes', heq'⟩ :
                ∃ a c, fbqLoop e T B minQ maxQ n (clamp ((lo + hi) / 2) minQ maxQ) hi
                  (clamp ((lo + hi) / 2) minQ maxQ, b) = (a, c) := ⟨_, _, rfl⟩
            rw [heq'] at heq
            obtain ⟨rfl, rfl⟩ := Prod.mk.injEq .. ▸ heq
            obtain ⟨h1, h2⟩ := ih _ _ _ _ _ heq'
              (le_trans hlo (le_of_lt hmid_gt)) hhi rfl
            refine ⟨by rw [← hlb]; exact le_trans (le_of_lt hmid_gt) h1, ?_⟩
            intro p hp k hk hkle
            rcases List.mem_cons.mp hp with rfl | hp
            · exact h1
            · exact h2 p hp k hk hkle
    · rw [if_neg hc] at heq
      obtain ⟨rfl, rfl⟩ := Prod.mk.injEq .. ▸ heq
      simp

/-- Every quality `fitByQuality` probes lies inside `[minQ, maxQ]`. -/
lemma fitByQuality_probes (e : ℚ → Option ℕ) (T B minQ maxQ : ℚ) (it : ℕ)
    (hq : minQ ≤ maxQ) :
    ∀ q ∈ (fitByQuality e T B minQ maxQ it).2, minQ ≤ q ∧ q ≤ maxQ := by
  rcases hmin : e minQ with _ | m
  · simp only [fitByQuality, hmin]
    intro q hqm
    rw [List.mem_singleton.mp hqm]
    exact ⟨le_refl _, hq⟩
  · simp only [fitByQuality, hmin]
    by_cases hmo : (m : ℚ) > T + B
    · rw [if_pos hmo]
      intro q hqm
      rw [List.mem_singleton.mp hqm]
      exact ⟨le_refl _, hq⟩
    · rw [if_neg hmo]
      by_cases hwin : withinBuffer (m : ℚ) T B
      · rw [if_pos hwin]
        intro q hqm
        rw [List.mem_singleton.mp hqm]
        exact ⟨le_refl _, hq⟩
      · rw [if_neg hwin]
        rcases hmax : e maxQ with _ | mx
        · obtain ⟨res, probes, hL⟩ :
              ∃ a c, fbqLoop e T B minQ maxQ it minQ maxQ (minQ, m) = (a, c) := ⟨_, _, rfl⟩
          simp only [hL]
          intro q hqm
          rcases List.mem_cons.mp hqm with rfl | hqm
          · exact ⟨le_refl _, hq⟩
          rcases List.mem_cons.mp hqm with rfl | hqm
          · exact ⟨hq, le_refl _⟩
          · exact fbqLoop_probes e T B minQ maxQ hq it _ _ _ _ _ hL q hqm
        · simp only []
          by_cases hmxo : (mx : ℚ) ≤ T + B
          · rw [if_pos hmxo]
            by_cases hmwin : withinBuffer (mx : ℚ) T B
            · rw [if_pos hmwin]
              intro q hqm
              rcases List.mem_cons.mp hqm with rfl | hqm
              · exact ⟨le_refl _, hq⟩
              · rw [List.mem_singleton.mp hqm]
                exact ⟨hq, le_refl _⟩
            · rw [if_neg hmwin]
              obtain ⟨res, probes, hL⟩ :
                  ∃ a c, fbqLoop e T B minQ maxQ it ((maxQ + minQ) / 2) maxQ (maxQ, mx)
                    = (a, c) := ⟨_, _, rfl⟩
              simp only [hL]
              intro q hqm
              rcases List.mem_cons.mp hqm with rfl | hqm
              · exact ⟨le_refl _, hq⟩
              rcases List.mem_cons.mp hqm with rfl | hqm
              · exact ⟨hq, le_refl _⟩
              · exact fbqLoop_probes e T B minQ maxQ hq it _ _ _ _ _ hL q hqm
          · rw [if_neg hmxo]
            obtain ⟨res, probes, hL⟩ :
                ∃ a c, fbqLoop e T B minQ maxQ it minQ maxQ (minQ, m) = (a, c) := ⟨_, _, rfl⟩
            simp only [hL]
            intro q hqm
            rcases List.mem_cons.mp hqm with rfl | hqm
            · exact ⟨le_refl _, hq⟩
            rcases List.mem_cons.mp hqm with rfl | hqm
            · exact ⟨hq, le_refl _⟩
            · exact fbqLoop_probes e T B minQ maxQ hq it _ _ _ _ _ hL q hqm

/-- `fitByQuality` always probes `minQ` first: its probe list starts with
`minQ` (the source's `minTry` of line 215 is unconditional). -/
lemma fitByQuality_head (e : ℚ → Option ℕ) (T B minQ maxQ : ℚ) (it : ℕ) :
    ∃ t, (fitByQuality e T B minQ maxQ it).2 = minQ :: t := by
  rcases hmin : e minQ with _ | m
  · exact ⟨[], by simp only [fitByQuality, hmin]⟩
  · simp only [fitByQuality, hmin]
    by_cases hmo : (m : ℚ) > T + B
    · rw [if_pos hmo]
      exact ⟨[], rfl⟩
    · rw [if_neg hmo]
      by_cases hwin : withinBuffer (m : ℚ) T B
      · rw [if_pos hwin]
        exact ⟨[], rfl⟩
      · rw [if_neg hwin]
        rcases hmax : e maxQ with _ | mx
        · exact ⟨_, rfl⟩
        · simp only []
          by_cases hmxo : (mx : ℚ) ≤ T + B
          · rw [if_pos hmxo]
            by_cases hmwin : withinBuffer (mx : ℚ) T B
            · rw [if_pos hmwin]
              exact ⟨[maxQ], rfl⟩
            · rw [if_neg hmwin]
              exact ⟨_, rfl⟩
          · rw [if_neg hmxo]
            exact ⟨_, rfl⟩

/-- Claim C2 (corrected): `fitByQuality` returns `none` exactly when the probe
at `minQuality` yields no blob or overshoots `targetBytes + bufferBytes`;
otherwise it returns an observed ceiling-conformant probe, and — whenever the
`maxQuality` probe yields no blob or overshoots the ceiling — that probe is
the highest-quality conformant probe observed.  (As stated the claim fails:
when the `maxQuality` probe is conformant but outside the tolerance band, the
bisection loop can replace it by a lower-quality conformant probe; see the
counterexample.) -/
theorem C2_fitByQuality_characterization (e : ℚ → Option ℕ) (T B minQ maxQ : ℚ)
    (it : ℕ) (hq : minQ ≤ maxQ) :
    ((fitByQuality e T B minQ maxQ it).1 = none ↔
      e minQ = none ∨ ∃ m, e minQ = some m ∧ T + B < (m : ℚ))
    ∧ (∀ q n, (fitByQuality e T B minQ maxQ it).1 = some (q, n) →
        e q = some n ∧ (n : ℚ) ≤ T + B ∧ q ∈ (fitByQuality e T B minQ maxQ it).2)
    ∧ ((e maxQ = none ∨ ∃ mx, e maxQ = some mx ∧ T + B < (mx : ℚ)) →
        ∀ q n, (fitByQuality e T B minQ maxQ it).1 = some (q, n) →
          ∀ p ∈ (fitByQuality e T B minQ maxQ it).2, ∀ k, e p = some k →
            (k : ℚ) ≤ T + B → p ≤ q) := by
  rcases Option.eq_none_or_eq_some (e minQ) with hmin | ⟨m, hmin⟩
  · have hF : fitByQuality e T B minQ maxQ it = (none, [minQ]) := by
      simp only [fitByQuality, hmin]
    rw [hF]
    refine ⟨iff_of_true rfl (Or.inl hmin), by simp, ?_⟩
    intro _ q n h
    simp at h
  · by_cases hmo : (m : ℚ) > T + B
    · have hF : fitByQuality e T B minQ maxQ it = (none, [minQ]) := by
        simp only [fitByQuality, hmin]
        rw [if_pos hmo]
      rw [hF]
      refine ⟨iff_of_true rfl (Or.inr ⟨m, hmin, hmo⟩), by simp, ?_⟩
      intro _ q n h
      simp at h
    · have hmle : (m : ℚ) ≤ T + B := not_lt.mp hmo
      have hnone_rhs : ¬(e minQ = none ∨ ∃ m', e minQ = some m' ∧ T + B < (m' : ℚ)) := by
        rintro (h | ⟨m', hm', hk⟩)
        · rw [hmin] at h; exact Option.noConfusion h
        · rw [hmin] at hm'
          obtain rfl : m = m' := by simpa using hm'
          exact absurd hk (not_lt.mpr hmle)
      by_cases hwin : withinBuffer (m : ℚ) T B
      · have hF : fitByQuality e T B minQ maxQ it = (some (minQ, m), [minQ]) := by
          simp only [fitByQuality, hmin]
          rw [if_neg hmo, if_pos hwin]
        rw [hF]
        refine ⟨iff_of_false (by simp) hnone_rhs, ?_, ?_⟩
        · intro q n h
          obtain ⟨rfl, rfl⟩ : minQ = q ∧ m = n := by simpa using h
          exact ⟨hmin, hmle, List.mem_singleton_self _⟩
        · intro _ q n h p hp k _ _
          obtain ⟨rfl, _⟩ : minQ = q ∧ m = n := by simpa using h
          rw [List.mem_singleton.mp hp]
      · rcases Option.eq_none_or_eq_some (e maxQ) with hmax | ⟨mx, hmax⟩
        · obtain ⟨res, probes, hL⟩ :
              ∃ a c, fbqLoop e T B minQ maxQ it minQ maxQ (minQ, m) = (a, c) := ⟨_, _, rfl⟩
          have hF : fitByQuality e T B minQ maxQ it
              = (some res, minQ :: maxQ :: probes) := by
            simp only [fitByQuality, hmin, hmax]
            rw [if_neg hmo, if_neg hwin, hL]
          rw [hF]
          obtain ⟨⟨hre, hrle⟩, horig⟩ :=
            fbqLoop_basic e T B minQ maxQ it _ _ _ _ _ hL hmin hmle
          obtain ⟨hdom, hmaxp⟩ :=
            fbqLoop_max e T B minQ maxQ it _ _ _ _ _ hL (le_refl _) (le_refl _) rfl
          refine ⟨iff_of_false (by simp) hnone_rhs, ?_, ?_⟩
          · intro q n h
            have hres : res = (q, n) := by simpa using h
            have hqc : res.1 = q := by rw [hres]
            have hnc : res.2 = n := by rw [hres]
            refine ⟨hqc ▸ hnc ▸ hre, hnc ▸ hrle, ?_⟩
            rcases horig with horig | horig
            · have hq1 : q = minQ := by
                rw [hres] at horig
                simpa using congrArg Prod.fst horig
              rw [hq1]
              exact List.mem_cons_self _ _
            · rw [hres] at horig
              exact List.mem_cons_of_mem _ (List.mem_cons_of_mem _ horig)
          · intro _ q n h p hp k hk hkle
            have hres : res = (q, n) := by simpa using h
            have hq1 : res.1 = q := by rw [hres]
            rcases List.mem_cons.mp hp with rfl | hp
            · rw [← hq1]; exact hdom
            rcases List.mem_cons.mp hp with rfl | hp
            · rw [hmax] at hk
              exact absurd hk (by simp)
            · rw [← hq1]
              exact hmaxp p hp k hk hkle
        · by_cases hmxo : (mx : ℚ) ≤ T + B
          · by_cases hmwin : withinBuffer (mx : ℚ) T B
            · have hF : fitByQuality e T B minQ maxQ it
                  = (some (maxQ, mx), [minQ, maxQ]) := by
                simp only [fitByQuality, hmin, hmax]
                rw [if_neg hmo, if_neg hwin, if_pos hmxo, if_pos hmwin]
              rw [hF]
              refine ⟨iff_of_false (by simp) hnone_rhs, ?_, ?_⟩
              · intro q n h
                obtain ⟨rfl, rfl⟩ : maxQ = q ∧ mx = n := by simpa using h
                exact ⟨hmax, hmxo, List.mem_cons_of_mem _ (List.mem_singleton_self _)⟩
              · intro hmaxhyp
                exfalso
                rcases hmaxhyp with h | ⟨mx', hmx', hk⟩
                · rw [hmax] at h; exact Option.noConfusion h
                · rw [hmax] at hmx'
                  obtain rfl : mx = mx' := by simpa using hmx'
                  exact absurd hk (not_lt.mpr hmxo)
            · obtain ⟨res, probes, hL⟩ :
                  ∃ a c, fbqLoop e T B minQ maxQ it ((maxQ + minQ) / 2) maxQ (maxQ, mx)
                    = (a, c) := ⟨_, _, rfl⟩
              have hF : fitByQuality e T B minQ maxQ it
                  = (some res, minQ :: maxQ :: probes) := by
                simp only [fitByQuality, hmin, hmax]
                rw [if_neg hmo, if_neg hwin, if_pos hmxo, if_neg hmwin, hL]
              rw [hF]
              obtain ⟨⟨hre, hrle⟩, horig⟩ :=
                fbqLoop_basic e T B minQ maxQ it _ _ _ _ _ hL hmax hmxo
              refine ⟨iff_of_false (by simp) hnone_rhs, ?_, ?_⟩
              · intro q n h
                have hres : res = (q, n) := by simpa using h
                have hqc : res.1 = q := by rw [hres]
                have hnc : res.2 = n := by rw [hres]
                refine ⟨hqc ▸ hnc ▸ hre, hnc ▸ hrle, ?_⟩
                rcases horig with horig | horig
                · have hq1 : q = maxQ := by
                    rw [hres] at horig
                    simpa using congrArg Prod.fst horig
                  rw [hq1]
                  exact List.mem_cons_of_mem _ (List.mem_cons_self _ _)
                · rw [hres] at horig
                  exact List.mem_cons_of_mem _ (List.mem_cons_of_mem _ horig)
              · intro hmaxhyp
                exfalso
                rcases hmaxhyp with h | ⟨mx', hmx', hk⟩
                · rw [hmax] at h; exact Option.noConfusion h
                · rw [hmax] at hmx'
                  obtain rfl : mx = mx' := by simpa using hmx'
                  exact absurd hk (not_lt.mpr hmxo)
          · obtain ⟨res, probes, hL⟩ :
                ∃ a c, fbqLoop e T B minQ maxQ it minQ maxQ (minQ, m) = (a, c) := ⟨_, _, rfl⟩
            have hF : fitByQuality e T B minQ maxQ it
                = (some res, minQ :: maxQ :: probes) := by
              simp only [fitByQuality, hmin, hmax]
              rw [if_neg hmo, if_neg hwin, if_neg hmxo, hL]
            rw [hF]
            obtain ⟨⟨hre, hrle⟩, horig⟩ :=
              fbqLoop_basic e T B minQ maxQ it _ _ _ _ _ hL hmin hmle
            obtain ⟨hdom, hmaxp⟩ :=
              fbqLoop_max e T B minQ maxQ it _ _ _ _ _ hL (le_refl _) (le_refl _) rfl
            refine ⟨iff_of_false (by simp) hnone_rhs, ?_, ?_⟩
            · intro q n h
              have hres : res = (q, n) := by simpa using h
              have hqc : res.1 = q := by rw [hres]
              have hnc : res.2 = n := by rw [hres]
              refine ⟨hqc ▸ hnc ▸ hre, hnc ▸ hrle, ?_⟩
              rcases horig with horig | horig
              · have hq1 : q = minQ := by
                  rw [hres] at horig
                  simpa using congrArg Prod.fst horig
                rw [hq1]
                exact List.mem_cons_self _ _
              · rw [hres] at horig
                exact List.mem_cons_of_mem _ (List.mem_cons_of_mem _ horig)
            · intro _ q n h p hp k hk hkle
              have hres : res = (q, n) := by simpa using h
              have hq1 : res.1 = q := by rw [hres]
              rcases List.mem_cons.mp hp with rfl | hp
              · rw [← hq1]; exact hdom
              rcases List.mem_cons.mp hp with rfl | hp
              · rw [hmax] at hk
                obtain rfl : mx = k := by simpa using hk
                exact absurd hkle hmxo
              · rw [← hq1]
                exact hmaxp p hp k hk hkle

/-- Counterexample to C2 as stated: with the constant encoder of size 100,
target 1000, buffer 10, quality bounds [3/10, 19/20] and 12 iterations, the
probe at `maxQuality = 19/20` is observed and its size 100 fits the ceiling,
yet `fitByQuality` returns the probe of quality 19443/20480 < 19/20, so the
returned probe is not the highest-quality conformant probe observed. -/
theorem C2_counterexample :
    (fitByQuality (fun _ => some 100) 1000 10 (3 / 10) (19 / 20) 12).1
        = some (19443 / 20480, 100) ∧
    (19 : ℚ) / 20 ∈ (fitByQuality (fun _ => some 100) 1000 10 (3 / 10) (19 / 20) 12).2 ∧
    ((fun _ => some 100 : ℚ → Option ℕ) (19 / 20)) = some 100 ∧
    ((100 : ℕ) : ℚ) ≤ 1000 + 10 ∧
    (19443 : ℚ) / 20480 < 19 / 20 :=
  ⟨by decide, by decide, rfl, by norm_num, by norm_num⟩

/-- Witness for C2 at a concrete instance: constant encoder of size 5000
overshooting the ceiling 1100, so `fitByQuality` returns `none` and the
characterization applies. -/
theorem C2_witness :
    ((3 : ℚ) / 10 ≤ 19 / 20) ∧
    (((fitByQuality (fun _ => some 5000) 1000 100 (3 / 10) (19 / 20) 3).1 = none ↔
      (fun _ => some 5000 : ℚ → Option ℕ) (3 / 10) = none ∨
        ∃ m, (fun _ => some 5000 : ℚ → Option ℕ) (3 / 10) = some m ∧
          (1000 : ℚ) + 100 < (m : ℚ))
    ∧ (∀ q n, (fitByQuality (fun _ => some 5000) 1000 100 (3 / 10) (19 / 20) 3).1
          = some (q, n) →
        (fun _ => some 5000 : ℚ → Option ℕ) q = some n ∧ (n : ℚ) ≤ 1000 + 100 ∧
          q ∈ (fitByQuality (fun _ => some 5000) 1000 100 (3 / 10) (19 / 20) 3).2)
    ∧ (((fun _ => some 5000 : ℚ → Option ℕ) (19 / 20) = none ∨
          ∃ mx, (fun _ => some 5000 : ℚ → Option ℕ) (19 / 20) = some mx ∧
            (1000 : ℚ) + 100 < (mx : ℚ)) →
        ∀ q n, (fitByQuality (fun _ => some 5000) 1000 100 (3 / 10) (19 / 20) 3).1
            = some (q, n) →
          ∀ p ∈ (fitByQuality (fun _ => some 5000) 1000 100 (3 / 10) (19 / 20) 3).2,
            ∀ k, (fun _ => some 5000 : ℚ → Option ℕ) p = some k →
              (k : ℚ) ≤ 1000 + 100 → p ≤ q)) :=
  ⟨by norm_num,
    C2_fitByQuality_characterization (fun _ => some 5000) 1000 100 (3 / 10) (19 / 20) 3
      (by norm_num)⟩

/-- Preservation of the under-target best invariant by the PNG scale loop:
every best-so-far the loop itself stores is at or under the target. -/
lemma pngRun_best (encode : ℚ → ℕ) (T minS : ℚ) :
    ∀ (fuel : ℕ) (st st' : PngState) (mids : List ℚ),
      pngRun encode T minS fuel st = (st', mids) →
      (∀ b, st.bestBlob = some b → (b : ℚ) ≤ T) →
      ∀ b, st'.bestBlob = some b → (b : ℚ) ≤ T := by
  intro fuel
  induction fuel with
  | zero =>
    intro st st' mids heq hinv
    simp only [pngRun] at heq
    obtain ⟨rfl, rfl⟩ := Prod.mk.injEq .. ▸ heq
    exact hinv
  | succ n ih =>
    intro st st' mids heq hinv
    simp only [pngRun] at heq
    by_cases hc : st.high - st.low > 1 / 1000
    · rw [if_pos hc] at heq
      obtain ⟨st'', mids', heq'⟩ :
          ∃ a b, pngRun encode T minS n (pngStep encode T minS st) = (a, b) := ⟨_, _, rfl⟩
      rw [heq'] at heq
      obtain ⟨rfl, rfl⟩ := Prod.mk.injEq .. ▸ heq
      refine ih _ _ _ heq' ?_
      by_cases hm : (encode (pngMid minS st) : ℚ) > T
      · have hstep : pngStep encode T minS st = { st with high := pngMid minS st } := by
          simp only [pngStep]
          rw [if_pos hm]
        rw [hstep]
        exact hinv
      · have hstep : pngStep encode T minS st =
            { st with
                bestBlob := some (encode (pngMid minS st))
                bestScale := pngMid minS st
                low := pngMid minS st } := by
          simp only [pngStep]
          rw [if_neg hm]
        rw [hstep]
        intro b hb
        obtain rfl : encode (pngMid minS st) = b := by simpa using hb
        exact not_lt.mp hm
    · rw [if_neg hc] at heq
      obtain ⟨rfl, rfl⟩ := Prod.mk.injEq .. ▸ heq
      exact hinv

/-- If the probe at `minQ` overshoots the ceiling (or yields no blob),
`fitByQuality` returns `none` — the monotonicity short-circuit. -/
lemma fitByQuality_none (e : ℚ → Option ℕ) (T B minQ maxQ : ℚ) (it : ℕ)
    (h : ∀ k, e minQ = some k → T + B < (k : ℚ)) :
    (fitByQuality e T B minQ maxQ it).1 = none := by
  rcases Option.eq_none_or_eq_some (e minQ) with hmin | ⟨m, hmin⟩
  · simp only [fitByQuality, hmin]
  · simp only [fitByQuality, hmin]
    rw [if_pos (h m hmin)]

/-- Bracket monotonicity and probe bounds for the raster phase-B scale loop. -/
lemma rLoop_spec (e : ℚ → ℚ → Option ℕ) (T B minQ maxQ : ℚ) (qI : ℕ) (minS : ℚ)
    (hminS : minS ≤ 1) (hq : minQ ≤ maxQ) :
    ∀ (fuel : ℕ) (st : RState) (out : RLoopOut) (tr : List (ℚ × ℚ)),
      rLoop e T B minQ maxQ qI minS fuel st = (out, tr) →
      st.high ≤ 1 → minS ≤ st.high → st.low ≤ st.high →
      (∀ p ∈ tr, (minS ≤ p.1 ∧ p.1 ≤ 1) ∧ minQ ≤ p.2 ∧ p.2 ≤ maxQ) ∧
      (∀ st', out = RLoopOut.done st' →
        st.low ≤ st'.low ∧ st'.high ≤ st.high ∧ st'.low ≤ st'.high ∧
        st'.high ≤ 1 ∧ minS ≤ st'.high) := by
  intro fuel
  induction fuel with
  | zero =>
    intro st out tr heq h1 h2 h3
    simp only [rLoop] at heq
    obtain ⟨rfl, rfl⟩ := Prod.mk.injEq .. ▸ heq
    refine ⟨by simp, ?_⟩
    intro st' hst'
    obtain rfl : st = st' := by simpa using hst'
    exact ⟨le_refl _, le_refl _, h3, h1, h2⟩
  | succ n ih =>
    intro st out tr heq h1 h2 h3
    simp only [rLoop] at heq
    by_cases hc : st.high - st.low > 1 / 1000
    · rw [if_pos hc] at heq
      have hlh : st.low < st.high := by linarith
      have hmid_lo : minS ≤ clamp ((st.low + st.high) / 2) minS 1 := le_clamp _ _ _
      have hmid_hi : clamp ((st.low + st.high) / 2) minS 1 ≤ 1 := clamp_le_of_le _ hminS
      have hmid_gt : st.low < clamp ((st.low + st.high) / 2) minS 1 :=
        lt_clamp _ (by linarith) (by linarith)
      have hmid_le : clamp ((st.low + st.high) / 2) minS 1 ≤ st.high :=
        clamp_le (by linarith) h2
      have htr1 : ∀ p ∈ (tryScale e T B minQ maxQ qI
          (clamp ((st.low + st.high) / 2) minS 1)).2,
          (minS ≤ p.1 ∧ p.1 ≤ 1) ∧ minQ ≤ p.2 ∧ p.2 ≤ maxQ := by
        simp only [tryScale]
        intro p hp
        obtain ⟨a, ha, rfl⟩ := List.mem_map.mp hp
        exact ⟨⟨hmid_lo, hmid_hi⟩, fitByQuality_probes _ _ _ _ _ _ hq a ha⟩
      rcases htry : (tryScale e T B minQ maxQ qI
          (clamp ((st.low + st.high) / 2) minS 1)).1 with _ | qsz
      · simp only [htry] at heq
        obtain ⟨out', tr', heq'⟩ :
            ∃ a b, rLoop e T B minQ maxQ qI minS n
              { st with high := clamp ((st.low + st.high) / 2) minS 1 } = (a, b) :=
          ⟨_, _, rfl⟩
        rw [heq'] at heq
        obtain ⟨rfl, rfl⟩ := Prod.mk.injEq .. ▸ heq
        obtain ⟨ih1, ih2⟩ := ih _ _ _ heq' hmid_hi hmid_lo (le_of_lt hmid_gt)
        refine ⟨?_, ?_⟩
        · intro p hp
          rcases List.mem_append.mp hp with hp | hp
          · exact htr1 p hp
          · exact ih1 p hp
        · intro st' hst'
          obtain ⟨k1, k2, k3, k4, k5⟩ := ih2 st' hst'
          exact ⟨by simpa using k1, le_trans (by simpa using k2) hmid_le, k3, k4, k5⟩
      · obtain ⟨q, sz⟩ := qsz
        simp only [htry] at heq
        by_cases hover : (sz : ℚ) > T + B
        · rw [if_pos hover] at heq
          obtain ⟨out', tr', heq'⟩ :
              ∃ a b, rLoop e T B minQ maxQ qI minS n
                { st with high := clamp ((st.low + st.high) / 2) minS 1 } = (a, b) :=
            ⟨_, _, rfl⟩
          rw [heq'] at heq
          obtain ⟨rfl, rfl⟩ := Prod.mk.injEq .. ▸ heq
          obtain ⟨ih1, ih2⟩ := ih _ _ _ heq' hmid_hi hmid_lo (le_of_lt hmid_gt)
          refine ⟨?_, ?_⟩
          · intro p hp
            rcases List.mem_append.mp hp with hp | hp
            · exact htr1 p hp
            · exact ih1 p hp
          · intro st' hst'
            obtain ⟨k1, k2, k3, k4, k5⟩ := ih2 st' hst'
            exact ⟨by simpa using k1, le_trans (by simpa using k2) hmid_le, k3, k4, k5⟩
        · rw [if_neg hover] at heq
          by_cases hwin : withinBuffer (sz : ℚ) T B
          · rw [if_pos hwin] at heq
            obtain ⟨rfl, rfl⟩ := Prod.mk.injEq .. ▸ heq
            refine ⟨htr1, ?_⟩
            intro st' hst'
            exact absurd hst' (by simp)
          · rw [if_neg hwin] at heq
            obtain ⟨out', tr', heq'⟩ :
                ∃ a b, rLoop e T B minQ maxQ qI minS n
                  { st with
                      bestBlob := some (q, sz)
                      bestScale := clamp ((st.low + st.high) / 2) minS 1
                      low := clamp ((st.low + st.high) / 2) minS 1 } = (a, b) :=
              ⟨_, _, rfl⟩
            rw [heq'] at heq
            obtain ⟨rfl, rfl⟩ := Prod.mk.injEq .. ▸ heq
            obtain ⟨ih1, ih2⟩ := ih _ _ _ heq' h1 h2 hmid_le
            refine ⟨?_, ?_⟩
            · intro p hp
              rcases List.mem_append.mp hp with hp | hp
              · exact htr1 p hp
              · exact ih1 p hp
            · intro st' hst'
              obtain ⟨k1, k2, k3, k4, k5⟩ := ih2 st' hst'
              exact ⟨le_trans (le_of_lt hmid_gt) (by simpa using k1),
                by simpa using k2, k3, k4, k5⟩
    · rw [if_neg hc] at heq
      obtain ⟨rfl, rfl⟩ := Prod.mk.injEq .. ▸ heq
      refine ⟨by simp, ?_⟩
      intro st' hst'
      obtain rfl : st = st' := by simpa using hst'
      exact ⟨le_refl _, le_refl _, h3, h1, h2⟩

/-- Preservation of the under-target best invariant by the raster scale loop
(given a non-negative buffer): any best the loop itself stores fits the
ceiling and is outside the tolerance band, hence is strictly under
`targetBytes - bufferBytes ≤ targetBytes`. -/
lemma rLoop_best (e : ℚ → ℚ → Option ℕ) (T B minQ maxQ : ℚ) (qI : ℕ) (minS : ℚ)
    (hB : 0 ≤ B) :
    ∀ (fuel : ℕ) (st : RState) (out : RLoopOut) (tr : List (ℚ × ℚ)),
      rLoop e T B minQ maxQ qI minS fuel st = (out, tr) →
      (∀ q n, st.bestBlob = some (q, n) → (n : ℚ) ≤ T) →
      ∀ st', out = RLoopOut.done st' →
        ∀ q n, st'.bestBlob = some (q, n) → (n : ℚ) ≤ T := by
  intro fuel
  induction fuel with
  | zero =>
    intro st out tr heq hinv st' hst'
    simp only [rLoop] at heq
    obtain ⟨rfl, rfl⟩ := Prod.mk.injEq .. ▸ heq
    obtain rfl : st = st' := by simpa using hst'
    exact hinv
  | succ n ih =>
    intro st out tr heq hinv st' hst'
    simp only [rLoop] at heq
    by_cases hc : st.high - st.low > 1 / 1000
    · rw [if_pos hc] at heq
      rcases htry : (tryScale e T B minQ maxQ qI
          (clamp ((st.low + st.high) / 2) minS 1)).1 with _ | qsz
      · simp only [htry] at heq
        obtain ⟨out', tr', heq'⟩ :
            ∃ a b, rLoop e T B minQ maxQ qI minS n
              { st with high := clamp ((st.low + st.high) / 2) minS 1 } = (a, b) :=
          ⟨_, _, rfl⟩
        rw [heq'] at heq
        obtain ⟨rfl, rfl⟩ := Prod.mk.injEq .. ▸ heq
        exact ih _ _ _ heq' hinv st' hst'
      · obtain ⟨q, sz⟩ := qsz
        simp only [htry] at heq
        by_cases hover : (sz : ℚ) > T + B
        · rw [if_pos hover] at heq
          obtain ⟨out', tr', heq'⟩ :
              ∃ a b, rLoop e T B minQ maxQ qI minS n
                { st with high := clamp ((st.low + st.high) / 2) minS 1 } = (a, b) :=
            ⟨_, _, rfl⟩
          rw [heq'] at heq
          obtain ⟨rfl, rfl⟩ := Prod.mk.injEq .. ▸ heq
          exact ih _ _ _ heq' hinv st' hst'
        · rw [if_neg hover] at heq
          by_cases hwin : withinBuffer (sz : ℚ) T B
          · rw [if_pos hwin] at heq
            obtain ⟨rfl, rfl⟩ := Prod.mk.injEq .. ▸ heq
            exact absurd hst' (by simp)
          · rw [if_neg hwin] at heq
            obtain ⟨out', tr', heq'⟩ :
                ∃ a b, rLoop e T B minQ maxQ qI minS n
                  { st with
                      bestBlob := some (q, sz)
                      bestScale := clamp ((st.low + st.high) / 2) minS 1
                      low := clamp ((st.low + st.high) / 2) minS 1 } = (a, b) :=
              ⟨_, _, rfl⟩
            rw [heq'] at heq
            obtain ⟨rfl, rfl⟩ := Prod.mk.injEq .. ▸ heq
            refine ih _ _ _ heq' ?_ st' hst'
            intro q' n' hb
            obtain ⟨rfl, rfl⟩ : q = q' ∧ sz = n' := by simpa using hb
            have hnotin : ¬(T - B ≤ (sz : ℚ)) := fun hin => hwin ⟨hin, not_lt.mp hover⟩
            linarith [not_le.mp hnotin]
    · rw [if_neg hc] at heq
      obtain ⟨rfl, rfl⟩ := Prod.mk.injEq .. ▸ heq
      obtain rfl : st = st' := by simpa using hst'
      exact hinv

/-- When the inner quality search finds no fit at any scale, the raster scale
loop only lowers `high`: it ends normally with `bestBlob`, `bestScale` and
`low` untouched. -/
lemma rLoop_allnone (e : ℚ → ℚ → Option ℕ) (T B minQ maxQ : ℚ) (qI : ℕ) (minS : ℚ)
    (hfit : ∀ s, (fitByQuality (e s) T B minQ maxQ qI).1 = none) :
    ∀ (fuel : ℕ) (st : RState),
      ∃ st' tr, rLoop e T B minQ maxQ qI minS fuel st = (RLoopOut.done st', tr) ∧
        st'.bestBlob = st.bestBlob ∧ st'.bestScale = st.bestScale ∧ st'.low = st.low := by
  intro fuel
  induction fuel with
  | zero =>
    intro st
    exact ⟨st, [], by simp only [rLoop], rfl, rfl, rfl⟩
  | succ n ih =>
    intro st
    by_cases hc : st.high - st.low > 1 / 1000
    · have htry : (tryScale e T B minQ maxQ qI
          (clamp ((st.low + st.high) / 2) minS 1)).1 = none := by
        simp only [tryScale]
        exact hfit _
      obtain ⟨st', tr, heq', e1, e2, e3⟩ :=
        ih { st with high := clamp ((st.low + st.high) / 2) minS 1 }
      have hmain : rLoop e T B minQ maxQ qI minS (n + 1) st = (RLoopOut.done st',
          (tryScale e T B minQ maxQ qI (clamp ((st.low + st.high) / 2) minS 1)).2 ++ tr) := by
        simp only [rLoop]
        rw [if_pos hc]
        simp only [htry, heq']
      exact ⟨st', _, hmain, by simpa using e1, by simpa using e2, by simpa using e3⟩
    · exact ⟨st, [], by simp only [rLoop]; rw [if_neg hc], rfl, rfl, rfl⟩

/-- Claim C4 (corrected): bracket monotonicity (`low` non-decreasing, `high`
non-increasing, `low ≤ high` until convergence) and in-bounds probing hold
throughout the PNG scale loop, the quality bisection loop (whose clamped
midpoint stays strictly inside the current bracket), and the raster phase-B
scale loop.  (As stated the claim fails: the raster scale search's initial
guess probe, `Math.max(minScale, Math.sqrt(targetBytes / file.size))` at line
108, is not clamped above by 1; when `targetBytes` exceeds the file size the
probed scale can exceed 1, and when that probe fits the ceiling the bracket is
seeded with `low > high`; see the counterexample.) -/
theorem C4_bracket_invariants :
    (∀ (encode : ℚ → ℕ) (T minS : ℚ) (fuel : ℕ) (st st' : PngState) (mids : List ℚ),
      minS ≤ 1 → pngRun encode T minS fuel st = (st', mids) →
      st.high ≤ 1 → minS ≤ st.high → st.low ≤ st.high →
      (st.low ≤ st'.low ∧ st'.high ≤ st.high ∧ st'.low ≤ st'.high) ∧
        ∀ m ∈ mids, minS ≤ m ∧ m ≤ 1)
    ∧ (∀ minQ maxQ lo hi : ℚ, minQ ≤ lo → hi ≤ maxQ → lo < hi →
        lo < clamp ((lo + hi) / 2) minQ maxQ ∧ clamp ((lo + hi) / 2) minQ maxQ < hi)
    ∧ (∀ (e : ℚ → Option ℕ) (T B minQ maxQ : ℚ) (it : ℕ), minQ ≤ maxQ →
        ∀ q ∈ (fitByQuality e T B minQ maxQ it).2, minQ ≤ q ∧ q ≤ maxQ)
    ∧ (∀ (e : ℚ → ℚ → Option ℕ) (T B minQ maxQ : ℚ) (qI : ℕ) (minS : ℚ)
        (fuel : ℕ) (st : RState) (out : RLoopOut) (tr : List (ℚ × ℚ)),
      minS ≤ 1 → minQ ≤ maxQ →
      rLoop e T B minQ maxQ qI minS fuel st = (out, tr) →
      st.high ≤ 1 → minS ≤ st.high → st.low ≤ st.high →
      (∀ p ∈ tr, (minS ≤ p.1 ∧ p.1 ≤ 1) ∧ minQ ≤ p.2 ∧ p.2 ≤ maxQ) ∧
        ∀ st'', out = RLoopOut.done st'' →
          st.low ≤ st''.low ∧ st''.high ≤ st.high ∧ st''.low ≤ st''.high) := by
  refine ⟨?_, ?_, ?_, ?_⟩
  · intro encode T minS fuel st st' mids hm heq h1 h2 h3
    obtain ⟨hbr, hmem, _, _, _⟩ := pngRun_spec encode T minS hm fuel st st' mids heq h1 h2 h3
    exact ⟨⟨hbr.2.2.1, hbr.2.2.2.1, hbr.2.2.2.2⟩,
      fun m hmm => ⟨(hmem m hmm).1, (hmem m hmm).2.1⟩⟩
  · intro minQ maxQ lo hi h1 h2 h3
    exact ⟨lt_clamp _ (by linarith) (by linarith), clamp_lt (by linarith) (by linarith)⟩
  · exact fun e T B minQ maxQ it hq => fitByQuality_probes e T B minQ maxQ it hq
  · intro e T B minQ maxQ qI minS fuel st out tr hm hq heq h1 h2 h3
    obtain ⟨htr, hdone⟩ := rLoop_spec e T B minQ maxQ qI minS hm hq fuel st out tr heq h1 h2 h3
    exact ⟨htr, fun st'' h =>
      ⟨(hdone st'' h).1, (hdone st'' h).2.1, (hdone st'' h).2.2.1⟩⟩

/-- Counterexample to C4 as stated: with `file.size = 51200` and target 150 KB
the raster scale search's initial guess is `sqrt(153600/51200) = sqrt 3 ≈
1.73205` (the first conjunct certifies the modelled float root), the quick
pass and phase A fail, and phase B probes scale 1.73205 > 1 — outside the
configured `[minScale, 1]` bounds — and, since that probe fits the ceiling,
seeds the bracket with `low = 1.73205 > high = 1`. -/
theorem C4_counterexample :
    |(173205 / 100000 : ℚ) ^ 2 - 153600 / 51200| ≤ 1 / 100000 ∧
    ¬withinBuffer 51200 (max 1 ((150 : ℚ) * 1024)) ((5 : ℚ) * 1024) ∧
    (tryScale (fun s _ => some (if 1 < s then 100000 else 400000))
      (max 1 ((150 : ℚ) * 1024)) ((5 : ℚ) * 1024) (3 / 10) (19 / 20) 12 1).1 = none ∧
    (rasterInitState (fun s _ => some (if 1 < s then 100000 else 400000))
      (max 1 ((150 : ℚ) * 1024)) ((5 : ℚ) * 1024) (3 / 10) (19 / 20) 12 (1 / 20)
      (max (1 / 20) (173205 / 100000))).1.low = 173205 / 100000 ∧
    (rasterInitState (fun s _ => some (if 1 < s then 100000 else 400000))
      (max 1 ((150 : ℚ) * 1024)) ((5 : ℚ) * 1024) (3 / 10) (19 / 20) 12 (1 / 20)
      (max (1 / 20) (173205 / 100000))).1.high = 1 ∧
    ¬((rasterInitState (fun s _ => some (if 1 < s then 100000 else 400000))
      (max 1 ((150 : ℚ) * 1024)) ((5 : ℚ) * 1024) (3 / 10) (19 / 20) 12 (1 / 20)
      (max (1 / 20) (173205 / 100000))).1.low
        ≤ (rasterInitState (fun s _ => some (if 1 < s then 100000 else 400000))
      (max 1 ((150 : ℚ) * 1024)) ((5 : ℚ) * 1024) (3 / 10) (19 / 20) 12 (1 / 20)
      (max (1 / 20) (173205 / 100000))).1.high) ∧
    ∃ p ∈ (resizeRasterToTarget 51200 (fun s _ => some (if 1 < s then 100000 else 400000))
      (173205 / 100000) 150 5 (3 / 10) (19 / 20) 12 (1 / 20) 12).trace, 1 < p.1 :=
  ⟨by decide, by decide, by decide, by decide, by decide, by decide, by decide⟩

/-- Witness for C4's amended invariants at concrete instances of each of the
four searches. -/
theorem C4_witness :
    ((1 : ℚ) / 20 ≤ 1 ∧
      pngRun (fun _ => 5) 10 (1 / 20) 1 ⟨0, 1, none, 1⟩
        = (⟨1 / 2, 1, some 5, 1 / 2⟩, [1 / 2]) ∧
      (3 : ℚ) / 10 ≤ 3 / 10 ∧ (19 : ℚ) / 20 ≤ 19 / 20 ∧ (3 : ℚ) / 10 < 19 / 20 ∧
      rLoop (fun _ _ => some 5) 10 0 (3 / 10) (19 / 20) 0 (1 / 20) 1 ⟨1 / 20, 1, none, 1 / 20⟩
        = (RLoopOut.done ⟨21 / 40, 1, some (19 / 20, 5), 21 / 40⟩,
            [(21 / 40, 3 / 10), (21 / 40, 19 / 20)])) ∧
    (((PngState.mk 0 1 none 1).low ≤ (PngState.mk (1 / 2) 1 (some 5) (1 / 2)).low ∧
        (PngState.mk (1 / 2) 1 (some 5) (1 / 2)).high ≤ (PngState.mk 0 1 none 1).high ∧
        (PngState.mk (1 / 2) 1 (some 5) (1 / 2)).low
          ≤ (PngState.mk (1 / 2) 1 (some 5) (1 / 2)).high) ∧
      ∀ m ∈ [(1 : ℚ) / 2], (1 : ℚ) / 20 ≤ m ∧ m ≤ 1) ∧
    ((3 : ℚ) / 10 < clamp ((3 / 10 + 19 / 20) / 2) (3 / 10) (19 / 20) ∧
      clamp (((3 : ℚ) / 10 + 19 / 20) / 2) (3 / 10) (19 / 20) < 19 / 20) ∧
    (∀ q ∈ (fitByQuality (fun _ => some 5) 10 0 (3 / 10) (19 / 20) 1).2,
      (3 : ℚ) / 10 ≤ q ∧ q ≤ 19 / 20) ∧
    ((∀ p ∈ [((21 : ℚ) / 40, (3 : ℚ) / 10), (21 / 40, 19 / 20)],
        ((1 : ℚ) / 20 ≤ p.1 ∧ p.1 ≤ 1) ∧ (3 : ℚ) / 10 ≤ p.2 ∧ p.2 ≤ 19 / 20) ∧
      ∀ st'', RLoopOut.done (RState.mk (21 / 40) 1 (some (19 / 20, 5)) (21 / 40))
          = RLoopOut.done st'' →
        (RState.mk (1 / 20) 1 none (1 / 20)).low ≤ st''.low ∧
        st''.high ≤ (RState.mk (1 / 20) 1 none (1 / 20)).high ∧ st''.low ≤ st''.high) :=
  ⟨⟨by norm_num, by decide, by norm_num, by norm_num, by norm_num, by decide⟩,
    C4_bracket_invariants.1 (fun _ => 5) 10 (1 / 20) 1 ⟨0, 1, none, 1⟩
      ⟨1 / 2, 1, some 5, 1 / 2⟩ [1 / 2] (by norm_num) (by decide)
      (by norm_num) (by norm_num) (by norm_num),
    C4_bracket_invariants.2.1 (3 / 10) (19 / 20) (3 / 10) (19 / 20) (by norm_num)
      (by norm_num) (by norm_num),
    C4_bracket_invariants.2.2.1 (fun _ => some 5) 10 0 (3 / 10) (19 / 20) 1 (by norm_num),
    C4_bracket_invariants.2.2.2 (fun _ _ => some 5) 10 0 (3 / 10) (19 / 20) 0 (1 / 20) 1
      ⟨1 / 20, 1, none, 1 / 20⟩ (RLoopOut.done ⟨21 / 40, 1, some (19 / 20, 5), 21 / 40⟩)
      [(21 / 40, 3 / 10), (21 / 40, 19 / 20)] (by norm_num) (by norm_num) (by decide)
      (by norm_num) (by norm_num) (by norm_num)⟩

/-- Claim C5 (corrected): the "best-so-far at or under target" invariant holds
for the PNG guess probe, throughout the PNG bisection loop, and throughout the
raster phase-B scale loop (for a non-negative buffer; a loop probe stored as
best fits the ceiling but is outside the band, hence is under target).  (As
stated the claim fails: the raster phase-B *initial* probe is stored as best
whenever it merely fits `target + buffer` — including sizes in
(target, target + buffer] — without the search returning, and only the ceiling
bound holds there; see the counterexample.) -/
theorem C5_best_under_target :
    (∀ (encode : ℚ → ℕ) (T g : ℚ) (b : ℕ),
      (pngInit encode T g).bestBlob = some b → (b : ℚ) ≤ T)
    ∧ (∀ (encode : ℚ → ℕ) (T minS : ℚ) (fuel : ℕ) (st st' : PngState) (mids : List ℚ),
        pngRun encode T minS fuel st = (st', mids) →
        (∀ b, st.bestBlob = some b → (b : ℚ) ≤ T) →
        ∀ b, st'.bestBlob = some b → (b : ℚ) ≤ T)
    ∧ (∀ (e : ℚ → ℚ → Option ℕ) (T B minQ maxQ : ℚ) (qI : ℕ) (minS : ℚ)
        (fuel : ℕ) (st : RState) (out : RLoopOut) (tr : List (ℚ × ℚ)),
        0 ≤ B → rLoop e T B minQ maxQ qI minS fuel st = (out, tr) →
        (∀ q n, st.bestBlob = some (q, n) → (n : ℚ) ≤ T) →
        ∀ st', out = RLoopOut.done st' →
          ∀ q n, st'.bestBlob = some (q, n) → (n : ℚ) ≤ T)
    ∧ (∀ (e : ℚ → ℚ → Option ℕ) (T B minQ maxQ : ℚ) (qI : ℕ) (minS mid0 q : ℚ) (n : ℕ),
        (rasterInitState e T B minQ maxQ qI minS mid0).1.bestBlob = some (q, n) →
        (n : ℚ) ≤ T + B) := by
  refine ⟨?_, ?_, ?_, ?_⟩
  · intro encode T g b hb
    by_cases hguess : (encode g : ℚ) ≤ T
    · simp only [pngInit] at hb
      rw [if_pos hguess] at hb
      obtain rfl : encode g = b := by simpa using hb
      exact hguess
    · simp only [pngInit] at hb
      rw [if_neg hguess] at hb
      simp at hb
  · exact fun encode T minS fuel st st' mids heq hinv =>
      pngRun_best encode T minS fuel st st' mids heq hinv
  · exact fun e T B minQ maxQ qI minS fuel st out tr hB heq hinv =>
      rLoop_best e T B minQ maxQ qI minS hB fuel st out tr heq hinv
  · intro e T B minQ maxQ qI minS mid0 q n hb
    rcases htry : (tryScale e T B minQ maxQ qI mid0).1 with _ | qsz
    · simp only [rasterInitState, htry] at hb
      simp at hb
    · obtain ⟨q', sz⟩ := qsz
      simp only [rasterInitState, htry] at hb
      by_cases hfits : (sz : ℚ) ≤ T + B
      · rw [if_pos hfits] at hb
        obtain ⟨_, rfl⟩ : q' = q ∧ sz = n := by simpa using hb
        exact hfits
      · rw [if_neg hfits] at hb
        simp at hb

/-- Counterexample to C5 as stated: target 150 KB, buffer 5 KB, a source of
1000000 bytes whose full-resolution re-encode is 800000 bytes (so phase A
fails) but which encodes to 155000 bytes at any reduced scale.  The phase-B
initial probe (at the modelled float guess sqrt(153600/1000000) ≈ 0.39192)
lands at 155000 ∈ (target, target + buffer]; it is stored as `bestBlob` and
the search does not return there — the loop keeps probing. -/
theorem C5_counterexample :
    ¬withinBuffer 1000000 (max 1 ((150 : ℚ) * 1024)) ((5 : ℚ) * 1024) ∧
    (tryScale (fun s _ => some (if 1 ≤ s then 800000 else 155000))
      (max 1 ((150 : ℚ) * 1024)) ((5 : ℚ) * 1024) (3 / 10) (19 / 20) 12 1).1 = none ∧
    |(39192 / 100000 : ℚ) ^ 2 - max 1 ((150 : ℚ) * 1024) / 1000000| ≤ 1 / 1000 ∧
    (rasterInitState (fun s _ => some (if 1 ≤ s then 800000 else 155000))
      (max 1 ((150 : ℚ) * 1024)) ((5 : ℚ) * 1024) (3 / 10) (19 / 20) 12 (1 / 20)
      (max (1 / 20) (39192 / 100000))).1.bestBlob = some (3 / 10, 155000) ∧
    ¬(((155000 : ℕ) : ℚ) ≤ max 1 ((150 : ℚ) * 1024)) ∧
    (rLoop (fun s _ => some (if 1 ≤ s then 800000 else 155000))
      (max 1 ((150 : ℚ) * 1024)) ((5 : ℚ) * 1024) (3 / 10) (19 / 20) 12 (1 / 20) 12
      (rasterInitState (fun s _ => some (if 1 ≤ s then 800000 else 155000))
        (max 1 ((150 : ℚ) * 1024)) ((5 : ℚ) * 1024) (3 / 10) (19 / 20) 12 (1 / 20)
        (max (1 / 20) (39192 / 100000))).1).2 ≠ [] :=
  ⟨by decide, by decide, by decide, by decide, by decide, by decide⟩

/-- Witness for C5's amended invariants at concrete instances. -/
theorem C5_witness :
    ((pngInit (fun _ => 5) 10 (1 / 2)).bestBlob = some 5 ∧
      pngRun (fun _ => 5) 10 (1 / 20) 1 ⟨0, 1, none, 1⟩
        = (⟨1 / 2, 1, some 5, 1 / 2⟩, [1 / 2]) ∧
      (0 : ℚ) ≤ 0 ∧
      rLoop (fun _ _ => some 5) 10 0 (3 / 10) (19 / 20) 0 (1 / 20) 1 ⟨1 / 20, 1, none, 1 / 20⟩
        = (RLoopOut.done ⟨21 / 40, 1, some (19 / 20, 5), 21 / 40⟩,
            [(21 / 40, 3 / 10), (21 / 40, 19 / 20)]) ∧
      (rasterInitState (fun s _ => some (if 1 ≤ s then 800000 else 155000))
        (max 1 ((150 : ℚ) * 1024)) ((5 : ℚ) * 1024) (3 / 10) (19 / 20) 12 (1 / 20)
        (max (1 / 20) (39192 / 100000))).1.bestBlob = some (3 / 10, 155000)) ∧
    (((5 : ℕ) : ℚ) ≤ 10 ∧
      (∀ b, (PngState.mk (1 / 2) 1 (some 5) (1 / 2)).bestBlob = some b → (b : ℚ) ≤ 10) ∧
      (∀ q n, (RState.mk (21 / 40) 1 (some (19 / 20, 5)) (21 / 40)).bestBlob = some (q, n) →
        (n : ℚ) ≤ 10) ∧
      ((155000 : ℕ) : ℚ) ≤ max 1 ((150 : ℚ) * 1024) + (5 : ℚ) * 1024) :=
  ⟨⟨by decide, by decide, le_refl 0, by decide, by decide⟩,
    C5_best_under_target.1 (fun _ => 5) 10 (1 / 2) 5 (by decide),
    C5_best_under_target.2.1 (fun _ => 5) 10 (1 / 20) 1 ⟨0, 1, none, 1⟩
      ⟨1 / 2, 1, some 5, 1 / 2⟩ [1 / 2] (by decide) (by simp),
    fun q n hqn =>
      C5_best_under_target.2.2.1 (fun _ _ => some 5) 10 0 (3 / 10) (19 / 20) 0 (1 / 20) 1
        ⟨1 / 20, 1, none, 1 / 20⟩
        (RLoopOut.done ⟨21 / 40, 1, some (19 / 20, 5), 21 / 40⟩)
        [(21 / 40, 3 / 10), (21 / 40, 19 / 20)] (le_refl 0) (by decide) (by simp)
        ⟨21 / 40, 1, some (19 / 20, 5), 21 / 40⟩ rfl q n hqn,
    C5_best_under_target.2.2.2 (fun s _ => some (if 1 ≤ s then 800000 else 155000))
      (max 1 ((150 : ℚ) * 1024)) ((5 : ℚ) * 1024) (3 / 10) (19 / 20) 12 (1 / 20)
      (max (1 / 20) (39192 / 100000)) (3 / 10) 155000 (by decide)⟩

/-- Claim C6 (corrected): for the raster searches the tolerance short-circuit
holds — if the very first probe (scale 1, `minQuality`) lands within the band,
`fitByQuality` returns it at once having invoked the encoder exactly once, and
`resizeRasterToTarget` returns it as the final result with that single encode
call as its whole trace.  (As stated the claim fails for the PNG scale search,
which has no tolerance short-circuit: its within-band check runs only after
the bisection loop, so a within-band first probe neither stops the search nor
need be the returned probe; see the counterexample.) -/
theorem C6_first_probe_short_circuit :
    (∀ (e : ℚ → Option ℕ) (T B minQ maxQ : ℚ) (it : ℕ) (m : ℕ),
      e minQ = some m → withinBuffer (m : ℚ) T B →
      fitByQuality e T B minQ maxQ it = (some (minQ, m), [minQ]))
    ∧ (∀ (fileSize : ℚ) (encode : ℚ → ℚ → Option ℕ)
        (sqrtSizeGuess targetKB bufferKB minQuality maxQuality : ℚ)
        (qI : ℕ) (minS : ℚ) (sI : ℕ) (m : ℕ),
      ¬withinBuffer fileSize (max 1 (targetKB * 1024)) (bufferKB * 1024) →
      encode 1 minQuality = some m →
      withinBuffer (m : ℚ) (max 1 (targetKB * 1024)) (bufferKB * 1024) →
      resizeRasterToTarget fileSize encode sqrtSizeGuess targetKB bufferKB minQuality
          maxQuality qI minS sI
        = ⟨RasterOutcome.enc 1 minQuality m, true, [(1, minQuality)]⟩) := by
  have key : ∀ (e : ℚ → Option ℕ) (T B minQ maxQ : ℚ) (it : ℕ) (m : ℕ),
      e minQ = some m → withinBuffer (m : ℚ) T B →
      fitByQuality e T B minQ maxQ it = (some (minQ, m), [minQ]) := by
    intro e T B minQ maxQ it m hmin hwin
    simp only [fitByQuality, hmin]
    rw [if_neg (not_lt.mpr hwin.2), if_pos hwin]
  refine ⟨key, ?_⟩
  intro fileSize encode sqrtSizeGuess targetKB bufferKB minQuality maxQuality qI minS sI m
    hnw hmin hwin
  have htA : tryScale encode (max 1 (targetKB * 1024)) (bufferKB * 1024) minQuality
      maxQuality qI 1 = (some (minQuality, m), [(1, minQuality)]) := by
    simp only [tryScale, key (encode 1) _ _ _ _ qI m hmin hwin]
    rfl
  simp only [resizeRasterToTarget]
  rw [if_neg hnw]
  simp only [htA]
  rw [if_pos hwin]

/-- Counterexample to C6 as stated: a constant encoder whose every blob has
exactly the target size 102400 (buffer 5120).  The PNG scale search's first
probe (the guess, scale 1/2) lands within the band, yet the search goes on to
probe nine further midpoints and returns the probe at scale 1023/1024, not the
first probe. -/
theorem C6_counterexample :
    withinBuffer (((fun _ => 102400 : ℚ → ℕ) (1 / 2) : ℕ) : ℚ) 102400 5120 ∧
    pngSearchCore (fun _ => 102400) 102400 5120 (1 / 20) 18 (1 / 2)
      = ((1023 / 1024, 102400),
         [1 / 2, 3 / 4, 7 / 8, 15 / 16, 31 / 32, 63 / 64, 127 / 128, 255 / 256,
          511 / 512, 1023 / 1024]) ∧
    (pngSearchCore (fun _ => 102400) 102400 5120 (1 / 20) 18 (1 / 2)).2.length ≠ 1 ∧
    (pngSearchCore (fun _ => 102400) 102400 5120 (1 / 20) 18 (1 / 2)).1.1 ≠ 1 / 2 :=
  ⟨by decide, by decide, by decide, by decide⟩

/-- Witness for C6's raster short-circuits at concrete instances. -/
theorem C6_witness :
    (((fun _ => some 1000 : ℚ → Option ℕ) (3 / 10) = some 1000 ∧
      withinBuffer ((1000 : ℕ) : ℚ) 1000 100 ∧
      ¬withinBuffer 500000 (max 1 ((150 : ℚ) * 1024)) ((5 : ℚ) * 1024) ∧
      (fun _ _ => some 150000 : ℚ → ℚ → Option ℕ) 1 (3 / 10) = some 150000 ∧
      withinBuffer ((150000 : ℕ) : ℚ) (max 1 ((150 : ℚ) * 1024)) ((5 : ℚ) * 1024)) ∧
    fitByQuality (fun _ => some 1000) 1000 100 (3 / 10) (19 / 20) 12
      = (some (3 / 10, 1000), [3 / 10]) ∧
    resizeRasterToTarget 500000 (fun _ _ => some 150000) (1 / 2) 150 5 (3 / 10) (19 / 20)
        12 (1 / 20) 12
      = ⟨RasterOutcome.enc 1 (3 / 10) 150000, true, [(1, 3 / 10)]⟩) :=
  ⟨⟨rfl, by decide, by decide, rfl, by decide⟩,
    C6_first_probe_short_circuit.1 (fun _ => some 1000) 1000 100 (3 / 10) (19 / 20) 12 1000
      rfl (by decide),
    C6_first_probe_short_circuit.2 500000 (fun _ _ => some 150000) (1 / 2) 150 5 (3 / 10)
      (19 / 20) 12 (1 / 20) 12 150000 (by decide) rfl (by decide)⟩

/-- Claim C7 (corrected): when no probe can satisfy the size ceiling, both
searches still return a blob (never raise) rendered at the floor parameters —
for `resizeRasterToTarget` at exactly (`minScale`, `minQuality`), but for
`resizePngToTarget` at scale `Math.max(minScale, 0.01)` (line 90), which
differs from `minScale` whenever `minScale < 0.01`; see the counterexample. -/
theorem C7_floor_fallback :
    (∀ (fileSize : ℚ) (encode : ℚ → ℕ) (sqrtSizeGuess targetKB bufferKB : ℚ)
        (maxIterations : ℕ) (minScale : ℚ),
      (∀ s, pngTargetBytes targetKB < (encode s : ℚ)) →
      pngTargetBytes targetKB + bufferKB * 1024 < fileSize →
      (resizePngToTarget fileSize encode sqrtSizeGuess targetKB bufferKB maxIterations
          minScale).result
        = PngOutcome.enc (max minScale (1 / 100)) (encode (max minScale (1 / 100))))
    ∧ (∀ (fileSize : ℚ) (encode : ℚ → ℚ → Option ℕ)
        (sqrtSizeGuess targetKB bufferKB minQuality maxQuality : ℚ) (qI : ℕ)
        (minS : ℚ) (sI : ℕ) (n : ℕ),
      (∀ s q k, encode s q = some k → max 1 (targetKB * 1024) + bufferKB * 1024 < (k : ℚ)) →
      ¬withinBuffer fileSize (max 1 (targetKB * 1024)) (bufferKB * 1024) →
      encode minS minQuality = some n →
      (resizeRasterToTarget fileSize encode sqrtSizeGuess targetKB bufferKB minQuality
          maxQuality qI minS sI).result = RasterOutcome.enc minS minQuality n) := by
  constructor
  · intro fileSize encode sqrtSizeGuess targetKB bufferKB maxIterations minScale hover hbig
    have hw1 : ¬withinBuffer fileSize (pngTargetBytes targetKB) (bufferKB * 1024) :=
      fun hw => absurd hw.2 (not_le.mpr hbig)
    have hw2 : ¬(fileSize ≤ pngTargetBytes targetKB + bufferKB * 1024) := not_le.mpr hbig
    obtain ⟨st', mids, heq⟩ :
        ∃ a b, pngRun encode (pngTargetBytes targetKB) minScale maxIterations
          (pngInit encode (pngTargetBytes targetKB)
            (clamp sqrtSizeGuess minScale 1)) = (a, b) := ⟨_, _, rfl⟩
    have hinit : pngInit encode (pngTargetBytes targetKB) (clamp sqrtSizeGuess minScale 1)
        = { low := 0, high := clamp sqrtSizeGuess minScale 1, bestBlob := none,
            bestScale := 1 } := by
      simp only [pngInit]
      rw [if_neg (not_le.mpr (hover _))]
    have hnone : st'.bestBlob = none := by
      have h := pngRun_none encode (pngTargetBytes targetKB) minScale hover
        maxIterations _ _ _ heq
      rw [hinit] at h
      simpa using h.1
    simp only [resizePngToTarget]
    rw [if_neg hw1, if_neg hw2]
    simp only [pngSearchCore, heq, hnone]
  · intro fileSize encode sqrtSizeGuess targetKB bufferKB minQuality maxQuality qI minS sI n
      hover hnw hfloor
    have hfitnone : ∀ s, (fitByQuality (encode s) (max 1 (targetKB * 1024))
        (bufferKB * 1024) minQuality maxQuality qI).1 = none :=
      fun s => fitByQuality_none _ _ _ _ _ _ (fun k hk => hover s minQuality k hk)
    have htA : (tryScale encode (max 1 (targetKB * 1024)) (bufferKB * 1024) minQuality
        maxQuality qI 1).1 = none := by
      simp only [tryScale]
      exact hfitnone 1
    have htB : (tryScale encode (max 1 (targetKB * 1024)) (bufferKB * 1024) minQuality
        maxQuality qI (max minS sqrtSizeGuess)).1 = none := by
      simp only [tryScale]
      exact hfitnone _
    have hini : rasterInitState encode (max 1 (targetKB * 1024)) (bufferKB * 1024)
        minQuality maxQuality qI minS (max minS sqrtSizeGuess)
        = ({ low := minS, high := max minS sqrtSizeGuess, bestBlob := none,
             bestScale := minS },
           (tryScale encode (max 1 (targetKB * 1024)) (bufferKB * 1024) minQuality
             maxQuality qI (max minS sqrtSizeGuess)).2) := by
      simp only [rasterInitState, htB]
    obtain ⟨st', tr, heqL, e1, e2, e3⟩ :=
      rLoop_allnone encode (max 1 (targetKB * 1024)) (bufferKB * 1024) minQuality
        maxQuality qI minS hfitnone sI
        { low := minS, high := max minS sqrtSizeGuess, bestBlob := none, bestScale := minS }
    have hstb : st'.bestBlob = none := by simpa using e1
    simp only [resizeRasterToTarget]
    rw [if_neg hnw]
    simp only [htA, hini, heqL, hstb, hfloor]
  
/-- Counterexample to C7 as stated: with `minScale = 1/200 < 0.01` and an
encoder always overshooting the 150 KB target, the PNG floor fallback renders
at `Math.max(minScale, 0.01) = 1/100`, not at `minScale` — the returned blob
was not rendered at the floor scale the claim names.  (The guess 7155/10000
is the modelled float `sqrt(targetBytes / file.size)` for a 300000-byte
source.) -/
theorem C7_counterexample :
    (∀ s : ℚ, pngTargetBytes 150 < (((fun _ => 500000 : ℚ → ℕ) s : ℕ) : ℚ)) ∧
    pngTargetBytes 150 + (5 : ℚ) * 1024 < 300000 ∧
    |(7155 / 10000 : ℚ) ^ 2 - pngTargetBytes 150 / 300000| ≤ 1 / 1000 ∧
    (resizePngToTarget 300000 (fun _ => 500000) (7155 / 10000) 150 5 18 (1 / 200)).result
      = PngOutcome.enc (1 / 100) 500000 ∧
    (1 / 100 : ℚ) ≠ 1 / 200 :=
  ⟨fun s => by norm_num [pngTargetBytes], by norm_num [pngTargetBytes], by decide,
    by decide, by norm_num⟩

/-- Witness for C7's amended floor fallback at concrete instances. -/
theorem C7_witness :
    ((∀ s : ℚ, pngTargetBytes 150 < (((fun _ => 500000 : ℚ → ℕ) s : ℕ) : ℚ)) ∧
      pngTargetBytes 150 + (5 : ℚ) * 1024 < 300000 ∧
      (∀ s q k, (fun _ _ => some 900000 : ℚ → ℚ → Option ℕ) s q = some k →
        max 1 ((150 : ℚ) * 1024) + (5 : ℚ) * 1024 < (k : ℚ)) ∧
      ¬withinBuffer 500000 (max 1 ((150 : ℚ) * 1024)) ((5 : ℚ) * 1024) ∧
      (fun _ _ => some 900000 : ℚ → ℚ → Option ℕ) (1 / 20) (3 / 10) = some 900000) ∧
    (resizePngToTarget 300000 (fun _ => 500000) (7155 / 10000) 150 5 18 (1 / 20)).result
      = PngOutcome.enc (max (1 / 20) (1 / 100))
          ((fun _ => 500000 : ℚ → ℕ) (max (1 / 20) (1 / 100))) ∧
    (resizeRasterToTarget 500000 (fun _ _ => some 900000) (1 / 2) 150 5 (3 / 10) (19 / 20)
        12 (1 / 20) 12).result = RasterOutcome.enc (1 / 20) (3 / 10) 900000 :=
  ⟨⟨fun s => by norm_num [pngTargetBytes], by norm_num [pngTargetBytes],
      fun s q k hk => by
        obtain rfl : (900000 : ℕ) = k := by simpa using hk
        norm_num,
      by decide, rfl⟩,
    C7_floor_fallback.1 300000 (fun _ => 500000) (7155 / 10000) 150 5 18 (1 / 20)
      (fun s => by norm_num [pngTargetBytes]) (by norm_num [pngTargetBytes]),
    C7_floor_fallback.2 500000 (fun _ _ => some 900000) (1 / 2) 150 5 (3 / 10) (19 / 20)
      12 (1 / 20) 12 900000
      (fun s q k hk => by
        obtain rfl : (900000 : ℕ) = k := by simpa using hk
        norm_num)
      (by decide) rfl⟩

/-- Size bounds for the synthetic encoder at a rational approximation `g` of
`sqrt(3/10)`: the guess probe lands within one byte of the 153600-byte
target. -/
lemma synthSize_guess_bounds (g : ℚ) (h1 : 54 / 100 ≤ g)
    (hsq : |g ^ 2 - 3 / 10| ≤ 1 / 1000000) :
    (synthSize g : ℚ) ≤ 153600 ∧ 153599 ≤ (synthSize g : ℚ) := by
  obtain ⟨hl, hr⟩ := abs_le.mp hsq
  have hge : (0 : ℚ) ≤ 512000 * g ^ 2 := by positivity
  have hfl0 : 0 ≤ (512000 * g ^ 2 : ℚ).floor := Int.floor_nonneg.mpr hge
  have hcast : ((synthSize g : ℕ) : ℚ) = (((512000 * g ^ 2 : ℚ).floor : ℤ) : ℚ) := by
    simp only [synthSize]
    exact_mod_cast congrArg (fun z : ℤ => (z : ℚ)) (Int.toNat_of_nonneg hfl0)
  constructor
  · rw [hcast]
    have hup : (512000 * g ^ 2 : ℚ) < 153601 := by nlinarith
    have hnle : ¬((153601 : ℤ) ≤ (512000 * g ^ 2 : ℚ).floor) := by
      rw [Rat.le_floor]
      push_neg
      exact_mod_cast hup
    have : (512000 * g ^ 2 : ℚ).floor ≤ 153600 := by omega
    exact_mod_cast this
  · rw [hcast]
    have hdn : (153599 : ℚ) ≤ 512000 * g ^ 2 := by nlinarith
    have : (153599 : ℤ) ≤ (512000 * g ^ 2 : ℚ).floor := Rat.le_floor.mpr (by exact_mod_cast hdn)
    exact_mod_cast this

/-- Overshoot bound for the synthetic encoder: any scale at least one half
bisection step above `g` encodes strictly above the target. -/
lemma synthSize_overshoot (g mid : ℚ) (h1 : 54 / 100 ≤ g)
    (hsq : |g ^ 2 - 3 / 10| ≤ 1 / 1000000) (hm : g + 1 / 2000 ≤ mid) :
    (153600 : ℚ) < (synthSize mid : ℚ) := by
  obtain ⟨hl, hr⟩ := abs_le.mp hsq
  have hmid0 : (0 : ℚ) ≤ mid := by linarith
  have hq : (153601 : ℚ) ≤ 512000 * mid ^ 2 := by
    nlinarith [mul_nonneg (by linarith : (0 : ℚ) ≤ mid - g - 1 / 2000)
      (by linarith : (0 : ℚ) ≤ mid + g + 1 / 2000)]
  have hfl : (153601 : ℤ) ≤ (512000 * mid ^ 2 : ℚ).floor :=
    Rat.le_floor.mpr (by exact_mod_cast hq)
  have hfl0 : 0 ≤ (512000 * mid ^ 2 : ℚ).floor := le_trans (by norm_num) hfl
  have hcast : ((synthSize mid : ℕ) : ℚ) = (((512000 * mid ^ 2 : ℚ).floor : ℤ) : ℚ) := by
    simp only [synthSize]
    exact_mod_cast congrArg (fun z : ℤ => (z : ℚ)) (Int.toNat_of_nonneg hfl0)
  rw [hcast]
  have : (153601 : ℚ) ≤ (((512000 * mid ^ 2 : ℚ).floor : ℤ) : ℚ) := by exact_mod_cast hfl
  linarith

/-- The scale loop over the synthetic encoder never moves the best away from
the guess `g`: every midpoint overshoots, so only `high` shrinks. -/
lemma synthRun_fixed (g : ℚ) (h1 : 54 / 100 ≤ g) (h2 : g ≤ 56 / 100)
    (hsq : |g ^ 2 - 3 / 10| ≤ 1 / 1000000) :
    ∀ (fuel : ℕ) (st : PngState), st.low = g → st.bestBlob = some (synthSize g) →
      st.bestScale = g → g < st.high → st.high ≤ 1 →
      (pngRun synthSize 153600 (1 / 20) fuel st).1.bestScale = g ∧
        (pngRun synthSize 153600 (1 / 20) fuel st).1.bestBlob = some (synthSize g) := by
  intro fuel
  induction fuel with
  | zero =>
    intro st e1 e2 e3 _ _
    simp only [pngRun]
    exact ⟨e3, e2⟩
  | succ n ih =>
    intro st e1 e2 e3 hlt hle
    simp only [pngRun]
    by_cases hc : st.high - st.low > 1 / 1000
    · rw [if_pos hc]
      have hmid_eq : pngMid (1 / 20) st = (st.low + st.high) / 2 := by
        simp only [pngMid, clamp]
        rw [min_eq_right (by rw [e1]; linarith), max_eq_right (by rw [e1]; linarith)]
      have hstep_mid : g + 1 / 2000 ≤ pngMid (1 / 20) st := by
        rw [hmid_eq, e1]
        rw [e1] at hc
        linarith
      have hover : (153600 : ℚ) < (synthSize (pngMid (1 / 20) st) : ℚ) :=
        synthSize_overshoot g _ h1 hsq hstep_mid
      have hstep : pngStep synthSize 153600 (1 / 20) st
          = { st with high := pngMid (1 / 20) st } := by
        simp only [pngStep]
        rw [if_pos hover]
      rw [hstep]
      refine ih _ (by simpa using e1) (by simpa using e2) (by simpa using e3) ?_ ?_
      · show g < pngMid (1 / 20) st
        linarith
      · show pngMid (1 / 20) st ≤ 1
        rw [hmid_eq, e1]
        linarith
    · rw [if_neg hc]
      exact ⟨e3, e2⟩

/-- Claim C8 (confirmed): for the synthetic encoder `size(scale) = 512000 ·
scale²` on a 500 KB original, target 150 KB and tolerance 5 KB, the scale
search returns the guess probe `g` (the modelled float `sqrt(153600/512000) =
sqrt(3/10)`, assumed accurate to 10⁻⁶ in the square), its size lies within
[145 KB, 155 KB] — indeed within one byte of the target — and the converged
scale is within one bisection step (10⁻³) of `sqrt(3/10)`. -/
theorem C8_synthetic_scenario (g : ℚ) (h1 : 54 / 100 ≤ g) (h2 : g ≤ 56 / 100)
    (hsq : |g ^ 2 - 3 / 10| ≤ 1 / 1000000) :
    (resizePngToTarget 512000 synthSize g 150 5 18 (1 / 20)).result
      = PngOutcome.enc g (synthSize g) ∧
    148480 ≤ (synthSize g : ℚ) ∧ (synthSize g : ℚ) ≤ 158720 ∧
    |(g : ℝ) - Real.sqrt (3 / 10)| ≤ 1 / 1000 := by
  obtain ⟨hub', hlb'⟩ := synthSize_guess_bounds g h1 hsq
  have hT : pngTargetBytes 150 = 153600 := by norm_num [pngTargetBytes]
  have hclamp : clamp g (1 / 20) 1 = g := by
    simp only [clamp]
    rw [min_eq_right (by linarith), max_eq_right (by linarith)]
  have hinit : pngInit synthSize 153600 g
      = { low := g, high := 1, bestBlob := some (synthSize g), bestScale := g } := by
    simp only [pngInit]
    rw [if_pos hub']
  obtain ⟨st', mids, heq⟩ :
      ∃ a b, pngRun synthSize 153600 (1 / 20) 18 (pngInit synthSize 153600 g) = (a, b) :=
    ⟨_, _, rfl⟩
  have hfix := synthRun_fixed g h1 h2 hsq 18 (pngInit synthSize 153600 g)
    (by rw [hinit]) (by rw [hinit]) (by rw [hinit]) (by rw [hinit]; show g < 1; linarith)
    (by rw [hinit])
  rw [heq] at hfix
  refine ⟨?_, by linarith, by linarith, ?_⟩
  · simp only [resizePngToTarget, hT]
    rw [if_neg (fun hw => by have := hw.2; norm_num at this),
      if_neg (by norm_num), hclamp]
    have hb2 : st'.bestBlob = some (synthSize g) := by simpa using hfix.2
    have hb1 : st'.bestScale = g := by simpa using hfix.1
    simp only [pngSearchCore, heq, hb2, hb1]
  · have hgR1 : ((54 / 100 : ℚ) : ℝ) ≤ (g : ℝ) := Rat.cast_le.mpr h1
    have hgR2 : ((g : ℝ)) ≤ ((56 / 100 : ℚ) : ℝ) := Rat.cast_le.mpr h2
    have hsqR' : ((|g ^ 2 - 3 / 10| : ℚ) : ℝ) ≤ ((1 / 1000000 : ℚ) : ℝ) :=
      Rat.cast_le.mpr hsq
    push_cast at hgR1 hgR2 hsqR'
    have hsqR : |(g : ℝ) ^ 2 - 3 / 10| ≤ 1 / 1000000 := hsqR'
    obtain ⟨hl, hr⟩ := abs_le.mp hsqR
    have hub : Real.sqrt (3 / 10) ≤ (g : ℝ) + 1 / 1000 := by
      have h0 : (0 : ℝ) ≤ (g : ℝ) + 1 / 1000 := by linarith
      have hsq2 : (3 : ℝ) / 10 ≤ ((g : ℝ) + 1 / 1000) ^ 2 := by nlinarith
      calc Real.sqrt (3 / 10) ≤ Real.sqrt (((g : ℝ) + 1 / 1000) ^ 2) :=
            Real.sqrt_le_sqrt hsq2
        _ = (g : ℝ) + 1 / 1000 := Real.sqrt_sq h0
    have hlb : (g : ℝ) - 1 / 1000 ≤ Real.sqrt (3 / 10) := by
      have h0 : (0 : ℝ) ≤ (g : ℝ) - 1 / 1000 := by linarith
      have hsq2 : ((g : ℝ) - 1 / 1000) ^ 2 ≤ 3 / 10 := by nlinarith
      calc (g : ℝ) - 1 / 1000 = Real.sqrt (((g : ℝ) - 1 / 1000) ^ 2) :=
            (Real.sqrt_sq h0).symm
        _ ≤ Real.sqrt (3 / 10) := Real.sqrt_le_sqrt hsq2
    exact abs_le.mpr ⟨by linarith, by linarith⟩

/-- Witness for C8 at the concrete rational approximation 0.547723 of
`sqrt(3/10)`. -/
theorem C8_witness :
    ((54 : ℚ) / 100 ≤ 547723 / 1000000 ∧ (547723 : ℚ) / 1000000 ≤ 56 / 100 ∧
      |(547723 / 1000000 : ℚ) ^ 2 - 3 / 10| ≤ 1 / 1000000) ∧
    ((resizePngToTarget 512000 synthSize (547723 / 1000000) 150 5 18 (1 / 20)).result
      = PngOutcome.enc (547723 / 1000000) (synthSize (547723 / 1000000)) ∧
    148480 ≤ (synthSize (547723 / 1000000) : ℚ) ∧
    (synthSize (547723 / 1000000) : ℚ) ≤ 158720 ∧
    |((547723 / 1000000 : ℚ) : ℝ) - Real.sqrt (3 / 10)| ≤ 1 / 1000) :=
  ⟨⟨by norm_num, by norm_num, by decide⟩,
    C8_synthetic_scenario (547723 / 1000000) (by norm_num) (by norm_num) (by decide)⟩

/-- Claim C3 (confirmed): whenever the quality-only search at full resolution
(scale 1) returns a probe whose size fits `targetBytes + bufferBytes`,
`resizeRasterToTarget` returns that probe immediately — even when its size is
outside the tolerance band — and never probes at any reduced scale. -/
theorem C3_full_resolution_preferred (fileSize : ℚ) (encode : ℚ → ℚ → Option ℕ)
    (sqrtSizeGuess targetKB bufferKB minQuality maxQuality : ℚ)
    (qualityIterations : ℕ) (minScale : ℚ) (scaleIterations : ℕ) (q : ℚ) (n : ℕ)
    (hnw : ¬withinBuffer fileSize (max 1 (targetKB * 1024)) (bufferKB * 1024))
    (hfit : (fitByQuality (encode 1) (max 1 (targetKB * 1024)) (bufferKB * 1024)
      minQuality maxQuality qualityIterations).1 = some (q, n))
    (hceil : (n : ℚ) ≤ max 1 (targetKB * 1024) + bufferKB * 1024) :
    (resizeRasterToTarget fileSize encode sqrtSizeGuess targetKB bufferKB minQuality
        maxQuality qualityIterations minScale scaleIterations).result
      = RasterOutcome.enc 1 q n ∧
    ∀ p ∈ (resizeRasterToTarget fileSize encode sqrtSizeGuess targetKB bufferKB minQuality
        maxQuality qualityIterations minScale scaleIterations).trace, p.1 = 1 := by
  have htA : (tryScale encode (max 1 (targetKB * 1024)) (bufferKB * 1024) minQuality
      maxQuality qualityIterations 1).1 = some (q, n) := by
    simp only [tryScale]
    exact hfit
  have htr : ∀ p ∈ (tryScale encode (max 1 (targetKB * 1024)) (bufferKB * 1024) minQuality
      maxQuality qualityIterations 1).2, p.1 = 1 := by
    simp only [tryScale]
    intro p hp
    obtain ⟨a, _, rfl⟩ := List.mem_map.mp hp
    rfl
  simp only [resizeRasterToTarget]
  rw [if_neg hnw]
  simp only [htA]
  by_cases hwin : withinBuffer (n : ℚ) (max 1 (targetKB * 1024)) (bufferKB * 1024)
  · rw [if_pos hwin]
    exact ⟨rfl, htr⟩
  · rw [if_neg hwin, if_neg (not_lt.mpr hceil)]
    exact ⟨rfl, htr⟩

/-- Witness for C3 at a concrete instance: a constant encoder of size 100000
with target 150 KB and buffer 5 KB; the full-resolution quality search fits the
ceiling but lands outside the tolerance band, and the function returns it with
no reduced-scale probe. -/
theorem C3_witness :
    (¬withinBuffer 999999 (max 1 ((150 : ℚ) * 1024)) ((5 : ℚ) * 1024) ∧
      (fitByQuality ((fun _ _ => some 100000 : ℚ → ℚ → Option ℕ) 1)
        (max 1 ((150 : ℚ) * 1024)) ((5 : ℚ) * 1024) (3 / 10) (19 / 20) 12).1
          = some (19443 / 20480, 100000) ∧
      ((100000 : ℕ) : ℚ) ≤ max 1 ((150 : ℚ) * 1024) + (5 : ℚ) * 1024) ∧
    ((resizeRasterToTarget 999999 (fun _ _ => some 100000) (1 / 2) 150 5 (3 / 10)
        (19 / 20) 12 (1 / 20) 12).result = RasterOutcome.enc 1 (19443 / 20480) 100000 ∧
      ∀ p ∈ (resizeRasterToTarget 999999 (fun _ _ => some 100000) (1 / 2) 150 5 (3 / 10)
        (19 / 20) 12 (1 / 20) 12).trace, p.1 = 1) :=
  ⟨⟨by decide, by decide, by norm_num⟩,
    C3_full_resolution_preferred 999999 (fun _ _ => some 100000) (1 / 2) 150 5 (3 / 10)
      (19 / 20) 12 (1 / 20) 12 (19443 / 20480) 100000 (by decide) (by decide) (by norm_num)⟩

/-- Claim C9 (confirmed): `resizePngToTarget` silently clamps the requested
target into [10·1024, 200·1024] bytes before searching — a request above
200 KB behaves identically to a 200 KB request and one below 10 KB identically
to a 10 KB request, for every file, encoder and option set — while the raw
(unclamped) `bufferKB` is used in the acceptance check: the no-decode early
return fires exactly on `withinBuffer(fileSize, 204800, bufferKB·1024)`. -/
theorem C9_target_clamping (fileSize : ℚ) (encode : ℚ → ℕ) (sqrtSizeGuess : ℚ)
    (bufferKB : ℚ) (maxIterations : ℕ) (minScale : ℚ) (targetKB : ℚ) :
    (200 ≤ targetKB →
      resizePngToTarget fileSize encode sqrtSizeGuess targetKB bufferKB maxIterations minScale
        = resizePngToTarget fileSize encode sqrtSizeGuess 200 bufferKB maxIterations minScale)
    ∧ (targetKB ≤ 10 →
      resizePngToTarget fileSize encode sqrtSizeGuess targetKB bufferKB maxIterations minScale
        = resizePngToTarget fileSize encode sqrtSizeGuess 10 bufferKB maxIterations minScale)
    ∧ (200 ≤ targetKB →
      ((resizePngToTarget fileSize encode sqrtSizeGuess targetKB bufferKB maxIterations
          minScale).decoded = false
        ↔ withinBuffer fileSize 204800 (bufferKB * 1024))) := by
  have key200 : 200 ≤ targetKB → pngTargetBytes targetKB = pngTargetBytes 200 := by
    intro h
    simp only [pngTargetBytes]
    rw [min_eq_left (by linarith), min_eq_left (by norm_num)]
  refine ⟨?_, ?_, ?_⟩
  · intro h
    simp only [resizePngToTarget]
    rw [key200 h]
  · intro h
    have key10 : pngTargetBytes targetKB = pngTargetBytes 10 := by
      simp only [pngTargetBytes]
      rw [min_eq_right (by linarith), min_eq_right (by norm_num),
        max_eq_left (by linarith), max_eq_left (by norm_num)]
    simp only [resizePngToTarget]
    rw [key10]
  · intro h
    have keyv : pngTargetBytes targetKB = 204800 := by
      rw [key200 h]
      norm_num [pngTargetBytes]
    simp only [resizePngToTarget, keyv]
    by_cases hw : withinBuffer fileSize 204800 (bufferKB * 1024)
    · rw [if_pos hw]
      exact iff_of_true rfl hw
    · rw [if_neg hw]
      by_cases h2 : fileSize ≤ 204800 + bufferKB * 1024
      · rw [if_pos h2]
        exact iff_of_false (by simp) hw
      · rw [if_neg h2]
        exact iff_of_false (by simp) hw

/-- Witness for C9 at concrete instances: a 300 KB request behaves as a 200 KB
one, a 5 KB request as a 10 KB one, and a 204800-byte input triggers the
no-decode early return of a 300 KB request. -/
theorem C9_witness :
    ((200 : ℚ) ≤ 300 ∧ (5 : ℚ) ≤ 10) ∧
    resizePngToTarget 400000 (fun _ => 100) (1 / 2) 300 5 18 (1 / 20)
      = resizePngToTarget 400000 (fun _ => 100) (1 / 2) 200 5 18 (1 / 20) ∧
    resizePngToTarget 400000 (fun _ => 100) (1 / 2) 5 5 18 (1 / 20)
      = resizePngToTarget 400000 (fun _ => 100) (1 / 2) 10 5 18 (1 / 20) ∧
    ((resizePngToTarget 204800 (fun _ => 100) (1 / 2) 300 5 18 (1 / 20)).decoded = false
      ↔ withinBuffer 204800 204800 ((5 : ℚ) * 1024)) :=
  ⟨⟨by norm_num, by norm_num⟩,
    (C9_target_clamping 400000 (fun _ => 100) (1 / 2) 5 18 (1 / 20) 300).1 (by norm_num),
    (C9_target_clamping 400000 (fun _ => 100) (1 / 2) 5 18 (1 / 20) 5).2.1 (by norm_num),
    (C9_target_clamping 204800 (fun _ => 100) (1 / 2) 5 18 (1 / 20) 300).2.2 (by norm_num)⟩

/-- Shape of every `resizeRasterToTarget` run that passes the quick pass: the
source is decoded and the trace starts with the full-resolution phase-A
probes. -/
lemma raster_search_shape (fileSize : ℚ) (encode : ℚ → ℚ → Option ℕ)
    (sqrtSizeGuess targetKB bufferKB minQ maxQ : ℚ) (qI : ℕ) (minS : ℚ) (sI : ℕ)
    (hnw : ¬withinBuffer fileSize (max 1 (targetKB * 1024)) (bufferKB * 1024)) :
    (resizeRasterToTarget fileSize encode sqrtSizeGuess targetKB bufferKB minQ maxQ
        qI minS sI).decoded = true ∧
    ∃ rest, (resizeRasterToTarget fileSize encode sqrtSizeGuess targetKB bufferKB minQ maxQ
        qI minS sI).trace
      = (tryScale encode (max 1 (targetKB * 1024)) (bufferKB * 1024) minQ maxQ qI 1).2
          ++ rest := by
  simp only [resizeRasterToTarget]
  rw [if_neg hnw]
  obtain ⟨out, tr, heqL⟩ :
      ∃ a b, rLoop encode (max 1 (targetKB * 1024)) (bufferKB * 1024) minQ maxQ qI minS sI
        (rasterInitState encode (max 1 (targetKB * 1024)) (bufferKB * 1024) minQ maxQ qI
          minS (max minS sqrtSizeGuess)).1 = (a, b) := ⟨_, _, rfl⟩
  rcases Option.eq_none_or_eq_some ((tryScale encode (max 1 (targetKB * 1024))
      (bufferKB * 1024) minQ maxQ qI 1).1) with htA | ⟨qsz, htA⟩
  · simp only [htA, heqL]
    cases out with
    | early s q sz => exact ⟨rfl, _, List.append_assoc _ _ _⟩
    | done st =>
      rcases Option.eq_none_or_eq_some st.bestBlob with hb | ⟨⟨q, sz⟩, hb⟩
      · simp only [hb]
        rcases Option.eq_none_or_eq_some (encode minS minQ) with he | ⟨n, he⟩
        · simp only [he]
          exact ⟨trivial, _, by rw [List.append_assoc, List.append_assoc]⟩
        · simp only [he]
          exact ⟨trivial, _, by rw [List.append_assoc, List.append_assoc]⟩
      · simp only [hb]
        exact ⟨trivial, _, List.append_assoc _ _ _⟩
  · obtain ⟨q, sz⟩ := qsz
    simp only [htA, heqL]
    by_cases hwin : withinBuffer (sz : ℚ) (max 1 (targetKB * 1024)) (bufferKB * 1024)
    · rw [if_pos hwin]
      exact ⟨rfl, [], (List.append_nil _).symm⟩
    · rw [if_neg hwin]
      by_cases hover : (sz : ℚ) > max 1 (targetKB * 1024) + bufferKB * 1024
      · rw [if_pos hover]
        cases out with
        | early s q' sz' => exact ⟨rfl, _, List.append_assoc _ _ _⟩
        | done st =>
          rcases Option.eq_none_or_eq_some st.bestBlob with hb | ⟨⟨q', sz'⟩, hb⟩
          · simp only [hb]
            rcases Option.eq_none_or_eq_some (encode minS minQ) with he | ⟨n, he⟩
            · simp only [he]
              exact ⟨trivial, _, by rw [List.append_assoc, List.append_assoc]⟩
            · simp only [he]
              exact ⟨trivial, _, by rw [List.append_assoc, List.append_assoc]⟩
          · simp only [hb]
            exact ⟨trivial, _, List.append_assoc _ _ _⟩
      · rw [if_neg hover]
        exact ⟨rfl, [], (List.append_nil _).symm⟩

/-- Claim C10 (confirmed): an input already within the band is returned
unchanged by both resizers with no decode and no encode call;
`resizePngToTarget` additionally returns the input unchanged whenever its size
is at most `targetBytes + bufferBytes` (with no encode call, though after the
decode in the out-of-band case), whereas `resizeRasterToTarget` decodes and
re-encodes an input smaller than `targetBytes - bufferBytes`. -/
theorem C10_already_small_inputs :
    (∀ (fileSize : ℚ) (encode : ℚ → ℕ) (sqrtSizeGuess targetKB bufferKB : ℚ)
        (maxIterations : ℕ) (minScale : ℚ),
      withinBuffer fileSize (pngTargetBytes targetKB) (bufferKB * 1024) →
      resizePngToTarget fileSize encode sqrtSizeGuess targetKB bufferKB maxIterations minScale
        = ⟨PngOutcome.file, false, []⟩)
    ∧ (∀ (fileSize : ℚ) (encode : ℚ → ℚ → Option ℕ)
        (sqrtSizeGuess targetKB bufferKB minQ maxQ : ℚ) (qI : ℕ) (minS : ℚ) (sI : ℕ),
      withinBuffer fileSize (max 1 (targetKB * 1024)) (bufferKB * 1024) →
      resizeRasterToTarget fileSize encode sqrtSizeGuess targetKB bufferKB minQ maxQ qI minS sI
        = ⟨RasterOutcome.file, false, []⟩)
    ∧ (∀ (fileSize : ℚ) (encode : ℚ → ℕ) (sqrtSizeGuess targetKB bufferKB : ℚ)
        (maxIterations : ℕ) (minScale : ℚ),
      fileSize ≤ pngTargetBytes targetKB + bufferKB * 1024 →
      (resizePngToTarget fileSize encode sqrtSizeGuess targetKB bufferKB maxIterations
          minScale).result = PngOutcome.file ∧
        (resizePngToTarget fileSize encode sqrtSizeGuess targetKB bufferKB maxIterations
          minScale).probes = [])
    ∧ (∀ (fileSize : ℚ) (encode : ℚ → ℚ → Option ℕ)
        (sqrtSizeGuess targetKB bufferKB minQ maxQ : ℚ) (qI : ℕ) (minS : ℚ) (sI : ℕ),
      fileSize < max 1 (targetKB * 1024) - bufferKB * 1024 →
      (resizeRasterToTarget fileSize encode sqrtSizeGuess targetKB bufferKB minQ maxQ qI
          minS sI).decoded = true ∧
        (1, minQ) ∈ (resizeRasterToTarget fileSize encode sqrtSizeGuess targetKB bufferKB
          minQ maxQ qI minS sI).trace) := by
  refine ⟨?_, ?_, ?_, ?_⟩
  · intro fileSize encode sqrtSizeGuess targetKB bufferKB maxIterations minScale hw
    simp only [resizePngToTarget]
    rw [if_pos hw]
  · intro fileSize encode sqrtSizeGuess targetKB bufferKB minQ maxQ qI minS sI hw
    simp only [resizeRasterToTarget]
    rw [if_pos hw]
  · intro fileSize encode sqrtSizeGuess targetKB bufferKB maxIterations minScale hle
    simp only [resizePngToTarget]
    by_cases hw : withinBuffer fileSize (pngTargetBytes targetKB) (bufferKB * 1024)
    · rw [if_pos hw]
      exact ⟨rfl, rfl⟩
    · rw [if_neg hw, if_pos hle]
      exact ⟨rfl, rfl⟩
  · intro fileSize encode sqrtSizeGuess targetKB bufferKB minQ maxQ qI minS sI hlt
    have hnw : ¬withinBuffer fileSize (max 1 (targetKB * 1024)) (bufferKB * 1024) :=
      fun hw => absurd hw.1 (not_le.mpr (by linarith))
    obtain ⟨hdec, rest, htr⟩ := raster_search_shape fileSize encode sqrtSizeGuess targetKB
      bufferKB minQ maxQ qI minS sI hnw
    refine ⟨hdec, ?_⟩
    rw [htr]
    refine List.mem_append_left _ ?_
    obtain ⟨t, ht⟩ := fitByQuality_head (encode 1) (max 1 (targetKB * 1024))
      (bufferKB * 1024) minQ maxQ qI
    simp only [tryScale, ht]
    exact List.mem_cons_self _ _

/-- Witness for C10 at concrete instances: a within-band input is returned
untouched by both resizers; an undersized input is returned untouched by the
PNG resizer but decoded and probed by the raster resizer. -/
theorem C10_witness :
    (withinBuffer 153600 (pngTargetBytes 150) ((5 : ℚ) * 1024) ∧
      withinBuffer 153600 (max 1 ((150 : ℚ) * 1024)) ((5 : ℚ) * 1024) ∧
      (100000 : ℚ) ≤ pngTargetBytes 150 + (5 : ℚ) * 1024 ∧
      (100000 : ℚ) < max 1 ((150 : ℚ) * 1024) - (5 : ℚ) * 1024) ∧
    resizePngToTarget 153600 (fun _ => 100) (1 / 2) 150 5 18 (1 / 20)
      = ⟨PngOutcome.file, false, []⟩ ∧
    resizeRasterToTarget 153600 (fun _ _ => some 100) (1 / 2) 150 5 (3 / 10) (19 / 20)
        12 (1 / 20) 12 = ⟨RasterOutcome.file, false, []⟩ ∧
    ((resizePngToTarget 100000 (fun _ => 100) (1 / 2) 150 5 18 (1 / 20)).result
        = PngOutcome.file ∧
      (resizePngToTarget 100000 (fun _ => 100) (1 / 2) 150 5 18 (1 / 20)).probes = []) ∧
    ((resizeRasterToTarget 100000 (fun _ _ => some 100) (1 / 2) 150 5 (3 / 10) (19 / 20)
        12 (1 / 20) 12).decoded = true ∧
      ((1 : ℚ), (3 : ℚ) / 10) ∈ (resizeRasterToTarget 100000 (fun _ _ => some 100) (1 / 2)
        150 5 (3 / 10) (19 / 20) 12 (1 / 20) 12).trace) :=
  ⟨⟨by decide, by decide, by norm_num [pngTargetBytes], by norm_num⟩,
    C10_already_small_inputs.1 153600 (fun _ => 100) (1 / 2) 150 5 18 (1 / 20) (by decide),
    C10_already_small_inputs.2.1 153600 (fun _ _ => some 100) (1 / 2) 150 5 (3 / 10)
      (19 / 20) 12 (1 / 20) 12 (by decide),
    C10_already_small_inputs.2.2.1 100000 (fun _ => 100) (1 / 2) 150 5 18 (1 / 20)
      (by norm_num [pngTargetBytes]),
    C10_already_small_inputs.2.2.2 100000 (fun _ _ => some 100) (1 / 2) 150 5 (3 / 10)
      (19 / 20) 12 (1 / 20) 12 (by norm_num)⟩

end ResizeImage
